import Mathlib

/-!
GoAnime: chunked downloader, address policy, quality selection, playback controller

A shallow embedding of the functions of `main.go` that the specification talks about,
followed by the theorems that relate the specification to the code.

Conventions of the embedding:

* Go `int` values are modelled as `Int`.  For a content length `S ≥ 0` and at least one
  part, every value of the range computation lies between `-1` and `S`
  (`chunk_values_bounded`), so Go computes it without wrap-around; `Atoi` clamps its
  result to the 64-bit range itself.
* Go strings are byte strings.  Where the code inspects bytes (`strconv.Atoi`,
  `strings.TrimRight`, `net.ParseIP`) the embedding works on the UTF-8 bytes of the
  string (`goBytes`).
* The file system maps the paths the downloader touches to the content of the files
  that exist.  The chunk tasks run concurrently in the source; each touches only its own
  part file, so they are run one after the other here.
* Standard input is the sequence of reads it delivers to a `bufio.Reader`.
* Everything the environment decides (network results, I/O failures, what the user
  types) is an explicit argument of the embedded function.
-/

set_option autoImplicit false

namespace GoAnime

/-- How a call of a Go function that returns an `error` ends. -/
inductive Ret
  /-- It returned `nil`. -/
  | nil
  /-- It returned a non-nil error. -/
  | error (msg : String)
  /-- It panicked (division by zero, index or length out of range). -/
  | panic
  deriving DecidableEq, Repr

/-! ## Chunk ranges (`DownloadVideo`, lines 378-398) -/

/-- The part size: `chunkSize := contentLength / numThreads` (Go division truncates toward zero). -/
def chunkSize (contentLength numThreads : Int) : Int :=
  Int.tdiv contentLength numThreads

/-- The first byte of part `i`: `from := i * chunkSize`. -/
def chunkFrom (contentLength numThreads i : Int) : Int :=
  i * chunkSize contentLength numThreads

/-- The last byte of part `i`: `to := from + chunkSize - 1`, overwritten by
`contentLength - 1` when `i == numThreads-1`. -/
def chunkTo (contentLength numThreads i : Int) : Int :=
  let from_ := chunkFrom contentLength numThreads i
  let to_ := from_ + chunkSize contentLength numThreads - 1
  if i = numThreads - 1 then contentLength - 1 else to_

/-! ## Go strings and `strconv.Atoi` (64-bit platform) -/

/-- The bytes of a Go string: its UTF-8 encoding. -/
def goBytes (s : String) : List Nat :=
  s.toList.flatMap fun c => (String.utf8EncodeChar c).map UInt8.toNat

/-- The two sentinel errors of package `strconv`. -/
inductive NumErr
  | ErrSyntax
  | ErrRange
  deriving DecidableEq, Repr

/-- Largest `uint64`: `maxVal` of `ParseUint` for `bitSize` 64. -/
def maxUint64 : Nat := 2 ^ 64 - 1

/-- Loop of `strconv.ParseUint(s, 10, 64)`: `n` is the accumulator.  A byte that is not a
decimal digit is a syntax error, and the loop returns `maxVal` with `ErrRange` as soon as
the accumulator overflows, before looking at the bytes that follow. -/
def parseUintLoop : List Nat → Nat → Nat × Option NumErr
  | [], n => (n, none)
  | c :: rest, n =>
    if 48 ≤ c ∧ c ≤ 57 then
      let d := c - 48
      -- cutoff := maxUint64/10 + 1
      if n ≥ maxUint64 / 10 + 1 then (maxUint64, some NumErr.ErrRange)
      else
        let n10 := (n * 10) % 2 ^ 64
        let n1 := (n10 + d) % 2 ^ 64
        if n1 < n10 ∨ n1 > maxUint64 then (maxUint64, some NumErr.ErrRange)
        else parseUintLoop rest n1
    else (0, some NumErr.ErrSyntax)

/-- Model of `strconv.ParseUint(s, 10, 0)`. -/
def ParseUint (s : List Nat) : Nat × Option NumErr :=
  if s = [] then (0, some NumErr.ErrSyntax) else parseUintLoop s 0

/-- The part of `strconv.ParseInt` after the call of `ParseUint` returned `r`: a syntax
error is passed on with value 0; otherwise the range check clamps to the largest
magnitude of the sign, or the value is converted to `int64` and negated. -/
def parseIntTail (neg : Bool) (r : Nat × Option NumErr) : Int × Option NumErr :=
  match r with
  | (_, some NumErr.ErrSyntax) => (0, some NumErr.ErrSyntax)
  | (un, _) =>
    -- cutoff := uint64(1 << 63)
    if neg = false ∧ un ≥ 2 ^ 63 then ((2 : Int) ^ 63 - 1, some NumErr.ErrRange)
    else if neg = true ∧ un > 2 ^ 63 then (-(2 : Int) ^ 63, some NumErr.ErrRange)
    else
      -- n := int64(un); if neg then n = -n, in two's complement
      let n : Int := if un ≥ 2 ^ 63 then (un : Int) - 2 ^ 64 else (un : Int)
      let n : Int := if neg then (if n = -(2 : Int) ^ 63 then n else -n) else n
      (n, none)

/-- Model of `strconv.ParseInt(s, 10, 0)`: pick off the sign, call `ParseUint`, then
`parseIntTail`. -/
def ParseInt (s : List Nat) : Int × Option NumErr :=
  match s with
  | [] => (0, some NumErr.ErrSyntax)
  | c :: rest =>
    let neg : Bool := c = 45
    let digits := if c = 43 ∨ c = 45 then rest else s
    parseIntTail neg (ParseUint digits)

/-- Loop of the fast path of `Atoi`: `ch -= '0'` in byte arithmetic, `ch > 9` is a syntax
error. -/
def atoiFastLoop : List Nat → Int → Option Int
  | [], n => some n
  | c :: rest, n =>
    let ch := (c + 256 - 48) % 256
    if ch > 9 then none else atoiFastLoop rest (n * 10 + (ch : Int))

/-- Model of `strconv.Atoi` with `intSize == 64`: the fast path for 1 to 18 bytes, else
`ParseInt(s, 10, 0)`.  The value is returned together with the error. -/
def Atoi (s : List Nat) : Int × Option NumErr :=
  if 0 < s.length ∧ s.length < 19 then
    match s with
    | [] => (0, some NumErr.ErrSyntax)
    | c :: rest =>
      let digits := if c = 45 ∨ c = 43 then rest else s
      if digits.length < 1 then (0, some NumErr.ErrSyntax)
      else
        match atoiFastLoop digits 0 with
        | none => (0, some NumErr.ErrSyntax)
        | some n => (if c = 45 then -n else n, none)
  else ParseInt s

/-- Model of `strings.TrimRight(s, cutset)` for a one-byte ASCII cutset
(`trimRightByte`): every trailing occurrence of the byte is removed. -/
def trimRightByte (s : List Nat) (c : Nat) : List Nat :=
  (s.reverse.dropWhile fun b => b = c).reverse

/-! ## Quality selection (`selectHighestQualityVideo`, `isHigherQuality`) -/

/-- One rendition of the JSON answer. -/
structure VideoData where
  Src : String
  Label : String
  deriving DecidableEq, Repr

/-- The number `isHigherQuality` compares:
`strconv.Atoi(strings.TrimRight(quality, "p"))` with the error dropped. -/
def qualityValue (quality : String) : Int :=
  (Atoi (trimRightByte (goBytes quality) 112)).1

/-- The function `isHigherQuality`. -/
def isHigherQuality (quality1 quality2 : String) : Bool :=
  let quality1Value := qualityValue quality1
  let quality2Value := qualityValue quality2
  decide (quality1Value > quality2Value)

/-- The number that a string of decimal digits denotes, read after the digits that gave
`acc`; `none` when a byte is not a digit. -/
def digitsValue : List Nat → Nat → Option Nat
  | [], acc => some acc
  | c :: rest, acc =>
    if 48 ≤ c ∧ c ≤ 57 then digitsValue rest (acc * 10 + (c - 48)) else none

/-- The integer a byte string denotes in decimal notation: an optional sign `+` or `-`
followed by one or more digits; `none` for any other string. -/
def decimalValue (s : List Nat) : Option Int :=
  match s with
  | [] => none
  | c :: rest =>
    let digits := if c = 43 ∨ c = 45 then rest else s
    if digits = [] then none
    else (digitsValue digits 0).map fun (v : Nat) => if c = 45 then -(v : Int) else (v : Int)

/-- The value the specification gives to a label: the integer the parse yields, and 0
for every label on which the parse reports an error. -/
def specQualityValue (quality : String) : Int :=
  match Atoi (trimRightByte (goBytes quality) 112) with
  | (n, none) => n
  | (_, some _) => 0

/-- Body of the loop of `selectHighestQualityVideo`; the state is
`(highestQuality, highestQualityURL)`. -/
def selectStep (st : String × String) (video : VideoData) : String × String :=
  if isHigherQuality video.Label st.1 then (video.Label, video.Src) else st

/-- The function `selectHighestQualityVideo`. -/
def selectHighestQualityVideo (videos : List VideoData) : String :=
  (videos.foldl selectStep ("", "")).2

/-! ## `net.IP`, `net.ParseIP` and the address policy (`IsDisallowedIP`) -/

/-- A `net.IP` is a byte slice: `[]` is the nil address, 4 bytes an IPv4 address,
16 bytes an IPv6 (or IPv4-mapped) address. -/
abbrev IP := List Nat

/-- Loop of `netip.parseIPv4Fields`: `prev` is the byte before the current one
(`none` at index 0), `fields` the octets completed so far (`pos` is their number). -/
def parseIPv4Loop : List Nat → Option Nat → Nat → Nat → List Nat → Option (List Nat)
  | [], _, val, _, fields =>
    -- after the loop: `pos < 3` is "address too short", else `fields[3] = val`
    if fields.length < 3 then none else some (fields ++ [val])
  | c :: rest, prev, val, digLen, fields =>
    if 48 ≤ c ∧ c ≤ 57 then
      if digLen = 1 ∧ val = 0 then none
      else
        let val1 := val * 10 + (c - 48)
        if val1 > 255 then none
        else parseIPv4Loop rest (some c) val1 (digLen + 1) fields
    else if c = 46 then
      -- `.1.2.3`, `1.2.3.`, `1..2.3`
      if prev = none ∨ rest = [] ∨ prev = some 46 then none
      else if fields.length = 3 then none
      else parseIPv4Loop rest (some c) 0 0 (fields ++ [val])
    else none

/-- Model of `netip.parseIPv4Fields` on a whole string: the four octets. -/
def parseIPv4Fields (s : List Nat) : Option (List Nat) :=
  parseIPv4Loop s none 0 0 []

/-- Inner loop of `netip.parseIPv6` reading one hexadecimal group: returns the number of
digits read, the value and the rest of the string; `none` when a fifth digit is read. -/
def parseHexGroup : List Nat → Nat → Nat → Option (Nat × Nat × List Nat)
  | [], off, acc => some (off, acc, [])
  | c :: rest, off, acc =>
    let digit : Option Nat :=
      if 48 ≤ c ∧ c ≤ 57 then some (c - 48)
      else if 97 ≤ c ∧ c ≤ 102 then some (c - 97 + 10)
      else if 65 ≤ c ∧ c ≤ 70 then some (c - 65 + 10)
      else none
    match digit with
    | none => some (off, acc, c :: rest)
    | some d =>
      let acc1 := acc * 16 + d
      if off > 3 then none
      else if acc1 > 65535 then none
      else parseHexGroup rest (off + 1) acc1

/-- Outer loop of `netip.parseIPv6` (`for i < 16`): `fuel` bounds the number of groups
still to be read (`i = ip.length`), `ellipsis` is the position of `::` if one was seen.
Returns the bytes read, the ellipsis and the unread rest of the string. -/
def parseIPv6Loop : Nat → List Nat → Option Nat → List Nat →
    Option (List Nat × Option Nat × List Nat)
  | 0, s, ellipsis, ip => some (ip, ellipsis, s)
  | fuel + 1, s, ellipsis, ip =>
    match parseHexGroup s 0 0 with
    | none => none
    | some (off, acc, rest) =>
      if off = 0 then none
      else
        match rest with
        | 46 :: _ =>
          -- followed by a dot: trailing IPv4
          if ellipsis = none ∧ ip.length ≠ 12 then none
          else if ip.length + 4 > 16 then none
          else
            match parseIPv4Fields s with
            | none => none
            | some v4 => some (ip ++ v4, ellipsis, [])
        | [] => some (ip ++ [acc / 256, acc % 256], ellipsis, [])
        | c :: rest1 =>
          let ip1 := ip ++ [acc / 256, acc % 256]
          if c ≠ 58 then none
          else
            match rest1 with
            | [] => none
            | 58 :: rest2 =>
              if ellipsis ≠ none then none
              else if rest2 = [] then some (ip1, some ip1.length, [])
              else parseIPv6Loop fuel rest2 (some ip1.length) ip1
            | _ => parseIPv6Loop fuel rest1 ellipsis ip1

/-- Tail of `netip.parseIPv6`: the whole string must be used, and a short address is
completed with zeros at the ellipsis. -/
def finishIPv6 (r : List Nat × Option Nat × List Nat) : Option (List Nat) :=
  match r with
  | (ip, ellipsis, rest) =>
    if rest ≠ [] then none
    else if ip.length < 16 then
      match ellipsis with
      | none => none
      | some e => some (ip.take e ++ List.replicate (16 - ip.length) 0 ++ ip.drop e)
    else if ellipsis ≠ none then none
    else some ip

/-- Model of `netip.parseIPv6` as `net.ParseIP` uses it: an address with a zone (`%`) is
not accepted by `ParseIP`. -/
def parseIPv6 (s : List Nat) : Option (List Nat) :=
  if 37 ∈ s then none
  else
    match s with
    | 58 :: 58 :: rest =>
      if rest = [] then some (List.replicate 16 0)
      else (parseIPv6Loop 8 rest (some 0) []).bind finishIPv6
    | _ => (parseIPv6Loop 8 s none []).bind finishIPv6

/-- The prefix `::ffff:0:0/96` of IPv4-mapped addresses (`v4InV6Prefix`). -/
def v4InV6Prefix : List Nat := [0, 0, 0, 0, 0, 0, 0, 0, 0, 0, 255, 255]

/-- Dispatch of `netip.ParseAddr`: the first of `.`, `:`, `%` decides the family. -/
def parseAddrScan (whole : List Nat) : List Nat → Option (List Nat)
  | [] => none
  | c :: rest =>
    if c = 46 then (parseIPv4Fields whole).map fun v4 => v4InV6Prefix ++ v4
    else if c = 58 then parseIPv6 whole
    else if c = 37 then none
    else parseAddrScan whole rest

/-- Model of `net.ParseIP`: the 16-byte form of the address, or nil (`[]`). -/
def ParseIP (s : String) : IP :=
  (parseAddrScan (goBytes s) (goBytes s)).getD []

/-- Model of `IP.To4`: the 4-byte form of an IPv4 address, or nil. -/
def IP.To4 (ip : IP) : IP :=
  if ip.length = 4 then ip
  else if ip.length = 16 ∧ ip.take 12 = v4InV6Prefix then ip.drop 12
  else []

/-- Model of `IP.Equal`. -/
def IP.Equal (ip x : IP) : Bool :=
  if ip.length = x.length then ip = x
  else if ip.length = 4 ∧ x.length = 16 then x.take 12 = v4InV6Prefix ∧ ip = x.drop 12
  else if ip.length = 16 ∧ x.length = 4 then ip.take 12 = v4InV6Prefix ∧ ip.drop 12 = x
  else false

/-- Model of `IP.IsUnspecified`: equal to `0.0.0.0` or to `::`. -/
def IP.IsUnspecified (ip : IP) : Bool :=
  IP.Equal ip (v4InV6Prefix ++ [0, 0, 0, 0]) || IP.Equal ip (List.replicate 16 0)

/-- Model of `IP.IsLoopback`: `127.0.0.0/8` or `::1`. -/
def IP.IsLoopback (ip : IP) : Bool :=
  if IP.To4 ip ≠ [] then (IP.To4 ip).getD 0 0 = 127
  else IP.Equal ip (List.replicate 15 0 ++ [1])

/-- Model of `IP.IsPrivate`: `10/8`, `172.16/12`, `192.168/16` or `fc00::/7`. -/
def IP.IsPrivate (ip : IP) : Bool :=
  if IP.To4 ip ≠ [] then
    let ip4 := IP.To4 ip
    ip4.getD 0 0 = 10 ∨ (ip4.getD 0 0 = 172 ∧ ip4.getD 1 0 &&& 0xf0 = 16) ∨
      (ip4.getD 0 0 = 192 ∧ ip4.getD 1 0 = 168)
  else ip.length = 16 ∧ ip.getD 0 0 &&& 0xfe = 0xfc

/-- Model of `IP.IsMulticast`: `224.0.0.0/4` or `ff00::/8`. -/
def IP.IsMulticast (ip : IP) : Bool :=
  if IP.To4 ip ≠ [] then (IP.To4 ip).getD 0 0 &&& 0xf0 = 0xe0
  else ip.length = 16 ∧ ip.getD 0 0 = 0xff

/-- Model of `IP.IsLinkLocalUnicast` (`169.254.0.0/16` or `fe80::/10`); the policy of
`IsDisallowedIP` does not call it. -/
def IP.IsLinkLocalUnicast (ip : IP) : Bool :=
  if IP.To4 ip ≠ [] then (IP.To4 ip).getD 0 0 = 169 ∧ (IP.To4 ip).getD 1 0 = 254
  else ip.length = 16 ∧ ip.getD 0 0 = 0xfe ∧ ip.getD 1 0 &&& 0xc0 = 0x80

/-- The function `IsDisallowedIP` (lines 87-90). -/
def IsDisallowedIP (hostIP : String) : Bool :=
  let ip := ParseIP hostIP
  IP.IsMulticast ip || IP.IsUnspecified ip || IP.IsLoopback ip || IP.IsPrivate ip

/-! ## The chunked downloader (`DownloadVideo`, lines 350-491) -/

/-- File contents. -/
abbrev Bytes := List Nat

/-- The paths `DownloadVideo` touches: `destPath` and, for each part number,
`filepath.Join(filepath.Dir(destPath), fmt.Sprintf("%s.part%d", filepath.Base(destPath), part))`. -/
inductive Path
  | dest
  | part (i : Nat)
  deriving DecidableEq, Repr

/-- The file system: the content of each path that exists. -/
abbrev FS := Path → Option Bytes

/-- The file at `p` now holds `b`. -/
def FS.write (fs : FS) (p : Path) (b : Bytes) : FS :=
  fun q => if q = p then some b else fs q

/-- Effect of `os.Remove(p)`. -/
def FS.remove (fs : FS) (p : Path) : FS :=
  fun q => if q = p then none else fs q

/-- The non-nil error that ends the reading of a response body. -/
inductive ReadErr
  | EOF
  | other
  deriving DecidableEq, Repr

/-- One call `resp.Body.Read(buf)` together with the fate of the `file.Write(buf[:n])`
that follows it: `data` is `buf[:n]`; `writeErr = some k` says that the write failed
after `k` bytes had reached the file. -/
structure ReadEvent where
  data : Bytes
  writeErr : Option Nat

/-- A response as the read loop sees it: the calls of `Read` that returned a nil error,
then the one call that returned a non-nil error (`io.EOF` or another one). -/
structure Response where
  reads : List ReadEvent
  last : ReadEvent
  lastErr : ReadErr

/-- How a chunk task ended: the `return` statements of the goroutine, in source order,
and the normal end after `bar.Finish()`. -/
inductive TaskEnd
  | unsafeURL
  | requestError
  | doError
  | createError
  | writeError
  | readError
  | finished
  deriving DecidableEq, Repr

/-- The statement `if n > 0 { file.Write(buf[:n]) ... }`: the new content of the part
file, and whether the write went through. -/
def writeBuf (file : Bytes) (ev : ReadEvent) : Bytes × Bool :=
  if ev.data.length > 0 then
    match ev.writeErr with
    | some k => (file ++ ev.data.take k, false)
    | none => (file ++ ev.data, true)
  else (file, true)

/-- The read loop of a chunk task (lines 438-456): the final content of the part file and
how the task ended. -/
def readLoop (file : Bytes) (last : ReadEvent) (lastErr : ReadErr) :
    List ReadEvent → Bytes × TaskEnd
  | [] =>
    match writeBuf file last with
    | (file1, false) => (file1, TaskEnd.writeError)
    | (file1, true) =>
      if lastErr = ReadErr.EOF then (file1, TaskEnd.finished) else (file1, TaskEnd.readError)
  | ev :: rest =>
    match writeBuf file ev with
    | (file1, false) => (file1, TaskEnd.writeError)
    | (file1, true) => readLoop file1 last lastErr rest

/-- What the environment decides for one download job. -/
structure Env where
  /-- Result of `httpClient.Head(url)`: status code, the `Content-Length` header and the
  `Accept-Ranges` header; `none` when the call returns an error. -/
  head : Option (Int × String × String)
  /-- Whether `pb.StartPool` succeeds. -/
  poolOk : Bool
  /-- Value of `isValidURL(url)`. -/
  urlValid : Bool
  /-- Whether `http.NewRequest("GET", url, nil)` succeeds. -/
  newRequestOk : Bool
  /-- Result of `httpClient.Do(req)` for part `part` asking `bytes=from-to`. -/
  httpDo : (part : Nat) → (from_ to_ : Int) → Option Response
  /-- Whether `os.Create` of part file `part` succeeds. -/
  partCreateOk : (part : Nat) → Bool
  /-- Whether `os.Create(destPath)` succeeds. -/
  destCreateOk : Bool
  /-- Result of `io.Copy(outFile, partFile)` for part `part`: `some k` is a failure after
  `k` bytes were copied. -/
  copyErr : (part : Nat) → Option Nat

/-- The bytes `c[from .. to]` (both ends included) that a server holding `c` sends for
the request header `Range: bytes=from-to`. -/
def byteRange (c : Bytes) (from_ to_ : Int) : Bytes :=
  (c.drop from_.toNat).take (to_ + 1 - from_).toNat

/-- The goroutine of lines 401-458 for one part: the file system after it and how it
ended.  It touches no path but its own part file. -/
def chunkTask (env : Env) (from_ to_ : Int) (part : Nat) (fs : FS) : FS × TaskEnd :=
  if env.urlValid = false then (fs, TaskEnd.unsafeURL)
  else if env.newRequestOk = false then (fs, TaskEnd.requestError)
  else
    match env.httpDo part from_ to_ with
    | none => (fs, TaskEnd.doError)
    | some resp =>
      if env.partCreateOk part = false then (fs, TaskEnd.createError)
      else
        let r := readLoop [] resp.last resp.lastErr resp.reads
        (fs.write (Path.part part) r.1, r.2)

/-- The launch loop of lines 393-459 followed by `wg.Wait()`: part `i` is given
`from := i * chunkSize` and `to` as in `chunkTo`.  The tasks write to pairwise different
files, so the file system after the join does not depend on their interleaving; they are
run here in index order. -/
def runTasks (env : Env) (contentLength numThreads : Int) : List Nat → FS → FS
  | [], fs => fs
  | i :: rest, fs =>
    let from_ := chunkFrom contentLength numThreads i
    let to_ := chunkTo contentLength numThreads i
    runTasks env contentLength numThreads rest (chunkTask env from_ to_ i fs).1

/-- The merge loop of lines 472-488 over the part numbers still to do: open the part
(an error if it does not exist), append it to the destination, remove it. -/
def mergeLoop (env : Env) : List Nat → FS → Ret × FS
  | [], fs => (Ret.nil, fs)
  | i :: rest, fs =>
    match fs (Path.part i) with
    | none => (Ret.error "open: no such file or directory", fs)
    | some data =>
      let out := (fs Path.dest).getD []
      match env.copyErr i with
      | some k =>
        (Ret.error "copy failed",
          (fs.write Path.dest (out ++ data.take k)).remove (Path.part i))
      | none =>
        mergeLoop env rest ((fs.write Path.dest (out ++ data)).remove (Path.part i))

/-- What a call of `DownloadVideo` leaves behind. -/
structure Outcome where
  /-- How the call ended. -/
  ret : Ret
  /-- Number of chunk goroutines launched. -/
  launched : Nat
  /-- The file system afterwards. -/
  fs : FS

/-- The function `DownloadVideo(url, destPath, numThreads)` on the file system `fs`. -/
def DownloadVideo (env : Env) (numThreads : Int) (fs : FS) : Outcome :=
  match env.head with
  | none => ⟨Ret.error "head request failed", 0, fs⟩
  | some (statusCode, contentLengthHeader, _) =>
    if statusCode ≠ 200 ∧ statusCode ≠ 206 then
      ⟨Ret.error "o servidor não suporta conteúdo parcial", 0, fs⟩
    else
      match Atoi (goBytes contentLengthHeader) with
      | (_, some _) => ⟨Ret.error "strconv.Atoi", 0, fs⟩
      | (contentLength, none) =>
        -- `contentLength / numThreads` and `make([]*pb.ProgressBar, numThreads)`
        if numThreads ≤ 0 then ⟨Ret.panic, 0, fs⟩
        else if env.poolOk = false then ⟨Ret.error "pb.StartPool", 0, fs⟩
        else
          let parts := List.range numThreads.toNat
          let fs1 := runTasks env contentLength numThreads parts fs
          if env.destCreateOk = false then ⟨Ret.error "os.Create", parts.length, fs1⟩
          else
            let r := mergeLoop env parts (fs1.write Path.dest [])
            ⟨r.1, parts.length, r.2⟩

/-- The bytes chunk task `part` of a job wrote to its part file: what the task, run on
its own, leaves there (nothing when it ended before creating the file). -/
def bytesWritten (env : Env) (contentLength numThreads : Int) (part : Nat) : Bytes :=
  ((chunkTask env (chunkFrom contentLength numThreads part)
    (chunkTo contentLength numThreads part) part (fun _ => none)).1 (Path.part part)).getD []

/-! ### Sample environments -/

/-- The file system with no file. -/
def emptyFS : FS := fun _ => none

/-- A server that holds `c` and honours range requests: the body of the answer is the
bytes asked for, delivered by a single `Read` that also reports `io.EOF`. -/
def rangeServer (c : Bytes) : Nat → Int → Int → Option Response :=
  fun _ from_ to_ => some ⟨[], ⟨byteRange c from_ to_, none⟩, ReadErr.EOF⟩

/-- A run against `rangeServer c` in which nothing fails; the probe is answered
`200` with the given `Content-Length` and `Accept-Ranges: bytes`. -/
def healthyEnv (c : Bytes) (contentLength : String) : Env where
  head := some (200, contentLength, "bytes")
  poolOk := true
  urlValid := true
  newRequestOk := true
  httpDo := rangeServer c
  partCreateOk := fun _ => true
  destCreateOk := true
  copyErr := fun _ => none

/-- Eight bytes of content. -/
def eightBytes : Bytes := [1, 2, 3, 4, 5, 6, 7, 8]

/-- A run against a server holding `eightBytes` in which one thing goes wrong: the body
of the answer for part 1 delivers the first byte of the range and then a read error
other than `io.EOF`. -/
def brokenBodyEnv : Env where
  head := some (200, "8", "bytes")
  poolOk := true
  urlValid := true
  newRequestOk := true
  httpDo := fun part from_ to_ =>
    if part = 1 then some ⟨[], ⟨(byteRange eightBytes from_ to_).take 1, none⟩, ReadErr.other⟩
    else rangeServer eightBytes part from_ to_
  partCreateOk := fun _ => true
  destCreateOk := true
  copyErr := fun _ => none

/-- A run against a server holding `eightBytes` in which one thing goes wrong: the
request of part 2 fails (`httpClient.Do` returns an error). -/
def failedRequestEnv : Env where
  head := some (200, "8", "bytes")
  poolOk := true
  urlValid := true
  newRequestOk := true
  httpDo := fun part from_ to_ =>
    if part = 2 then none else rangeServer eightBytes part from_ to_
  partCreateOk := fun _ => true
  destCreateOk := true
  copyErr := fun _ => none

/-- A run against a server that holds `eightBytes` and does not support range requests:
the probe is answered `200` with `Content-Length: 8` and no `Accept-Ranges` header, and
every `GET` is answered with the whole content, whatever its `Range` header asks. -/
def noRangeEnv : Env where
  head := some (200, "8", "")
  poolOk := true
  urlValid := true
  newRequestOk := true
  httpDo := fun _ _ _ => some ⟨[], ⟨eightBytes, none⟩, ReadErr.EOF⟩
  partCreateOk := fun _ => true
  destCreateOk := true
  copyErr := fun _ => none

/-- A file system in which an earlier run has left a part file: part 2 holds two
bytes. -/
def stalePartFS : FS := fun p => if p = Path.part 2 then some [9, 9] else none

/-- A run against a server holding `eightBytes` in which one thing goes wrong: the
destination file cannot be created. -/
def noDestEnv : Env where
  head := some (200, "8", "bytes")
  poolOk := true
  urlValid := true
  newRequestOk := true
  httpDo := rangeServer eightBytes
  partCreateOk := fun _ => true
  destCreateOk := false
  copyErr := fun _ => none

/-- A run against a server that holds `eightBytes` and ignores the `Range` header (every
`GET` that is answered carries the whole content), in which the request of part 1 fails
(`httpClient.Do` returns an error) and the other three requests succeed. -/
def noRangeFailedEnv : Env where
  head := some (200, "8", "")
  poolOk := true
  urlValid := true
  newRequestOk := true
  httpDo := fun part _ _ =>
    if part = 1 then none else some ⟨[], ⟨eightBytes, none⟩, ReadErr.EOF⟩
  partCreateOk := fun _ => true
  destCreateOk := true
  copyErr := fun _ => none

/-- A run against a server holding `eightBytes` that honours ranges, in which the request
of part 2 fails and the destination file cannot be created. -/
def failedRequestNoDestEnv : Env where
  head := some (200, "8", "bytes")
  poolOk := true
  urlValid := true
  newRequestOk := true
  httpDo := fun part from_ to_ =>
    if part = 2 then none else rangeServer eightBytes part from_ to_
  partCreateOk := fun _ => true
  destCreateOk := false
  copyErr := fun _ => none

/-- A file system in which the destination exists already and holds `eightBytes`. -/
def oldDestFS : FS := fun p => if p = Path.dest then some eightBytes else none

/-- Ten bytes of content. -/
def tenBytes : Bytes := [1, 2, 3, 4, 5, 6, 7, 8, 9, 10]

/-! ## The playback controller (`PlayVideo`, lines 230-310) -/

/-- An episode: display label, ordinal, page URL. -/
structure Episode where
  Number : String
  Num : Int
  URL : String
  deriving DecidableEq, Repr

/-- What `PlayVideo` does to the outside world, in program order. -/
inductive Effect
  /-- The goroutine that runs `vlc -vvv videoURL` is started. -/
  | startPlayer (videoURL : String)
  /-- The call `wg.Wait()` returned: the player has exited. -/
  | waitPlayer
  /-- The call `getVideoURLForEpisode(episodeURL)`. -/
  | resolveURL (episodeURL : String)
  /-- A line printed or logged. -/
  | print (msg : String)
  deriving DecidableEq, Repr

/-- The search of lines 247-254: the first index whose `Num` is `currentEpisodeNum`,
counted from `i`; `none` stands for the value `-1` of the source. -/
def findEpisodeIndexFrom (currentEpisodeNum : Int) : List Episode → Nat → Option Nat
  | [], _ => none
  | ep :: rest, i =>
    if ep.Num = currentEpisodeNum then some i
    else findEpisodeIndexFrom currentEpisodeNum rest (i + 1)

/-- The index `currentEpisodeIndex` that `PlayVideo` computes on entry. -/
def findEpisodeIndex (episodes : List Episode) (currentEpisodeNum : Int) : Option Nat :=
  findEpisodeIndexFrom currentEpisodeNum episodes 0

/-- How the body of the command loop ends for one command. -/
inductive Next
  /-- The `for` loop reads the next command, with this `currentEpisodeIndex`. -/
  | loop (currentEpisodeIndex : Nat)
  /-- The statement `return PlayVideo(videoURL, episodes, num)`. -/
  | replay (videoURL : String) (num : Int)
  /-- The statement `return nil`. -/
  | done
  /-- An index out of range. -/
  | panic
  deriving DecidableEq, Repr

/-- The `switch char` of lines 273-305 for one command read from the input.
`getVideoURL` is `getVideoURLForEpisode` (`none` is an error). -/
def command (getVideoURL : String → Option String) (episodes : List Episode)
    (currentEpisodeIndex : Nat) (char : Char) : List Effect × Next :=
  if char = 'n' then
    if h : currentEpisodeIndex + 1 < episodes.length then
      let nextEpisode := episodes[currentEpisodeIndex + 1]
      let pre := [Effect.print ("Switching to next episode: " ++ nextEpisode.Number),
        Effect.waitPlayer, Effect.resolveURL nextEpisode.URL]
      match getVideoURL nextEpisode.URL with
      | none =>
        (pre ++ [Effect.print "Failed to get video URL for next episode"],
          Next.loop currentEpisodeIndex)
      | some nextVideoURL => (pre, Next.replay nextVideoURL nextEpisode.Num)
    else ([Effect.print "Already at the last episode."], Next.loop currentEpisodeIndex)
  else if char = 'p' then
    if currentEpisodeIndex > 0 then
      match episodes[currentEpisodeIndex - 1]? with
      | none => ([], Next.panic)
      | some prevEpisode =>
        let pre := [Effect.print ("Switching to previous episode: " ++ prevEpisode.Number),
          Effect.waitPlayer, Effect.resolveURL prevEpisode.URL]
        match getVideoURL prevEpisode.URL with
        | none =>
          (pre ++ [Effect.print "Failed to get video URL for previous episode"],
            Next.loop currentEpisodeIndex)
        | some prevVideoURL => (pre, Next.replay prevVideoURL prevEpisode.Num)
    else ([Effect.print "Already at the first episode."], Next.loop currentEpisodeIndex)
  else if char = 'q' then ([Effect.print "Quitting video playback."], Next.done)
  else ([], Next.loop currentEpisodeIndex)

/-- The part of `PlayVideo` before the command loop (lines 231-264): start the player,
find the index of `currentEpisodeNum`. -/
def enterPlayVideo (videoURL : String) (episodes : List Episode) (currentEpisodeNum : Int) :
    List Effect × Option Nat :=
  match findEpisodeIndex episodes currentEpisodeNum with
  | none => ([Effect.startPlayer videoURL, Effect.print "Current episode number not found"], none)
  | some i =>
    ([Effect.startPlayer videoURL,
      Effect.print "Press 'n' for next episode, 'p' for previous episode, 'q' to quit:"], some i)

/-- How the handling of the runes held by one `bufio.Reader` ends. -/
inductive BufferEnd
  /-- No rune is left to this reader (its buffer is used up, or the reader was abandoned
  on re-entry): the next `ReadRune` reads standard input again, the controller being at
  this index. -/
  | more (currentEpisodeIndex : Nat)
  /-- The outermost `PlayVideo` returned. -/
  | stop (ret : Ret)
  deriving DecidableEq, Repr

/-- The command loop of lines 266-306 on the runes that one read of standard input put
into the buffer of `reader`.  A `replay` re-enters `PlayVideo`, which makes a new
`bufio.NewReader(os.Stdin)`: the runes still buffered in the old reader are never read. -/
def bufferedCommands (getVideoURL : String → Option String) (episodes : List Episode) :
    Nat → List Char → List Effect × BufferEnd
  | currentEpisodeIndex, [] => ([], BufferEnd.more currentEpisodeIndex)
  | currentEpisodeIndex, char :: rest =>
    match command getVideoURL episodes currentEpisodeIndex char with
    | (effs, Next.loop i) =>
      let r := bufferedCommands getVideoURL episodes i rest
      (effs ++ r.1, r.2)
    | (effs, Next.replay videoURL num) =>
      match enterPlayVideo videoURL episodes num with
      | (effs1, none) => (effs ++ effs1, BufferEnd.stop (Ret.error "current episode not found"))
      | (effs1, some i) => (effs ++ effs1, BufferEnd.more i)
    | (effs, Next.done) => (effs, BufferEnd.stop Ret.nil)
    | (effs, Next.panic) => (effs, BufferEnd.stop Ret.panic)

/-- The command loop on standard input, given as the successive reads it delivers (each
one fills the buffer of the current reader); after the last one a read fails, which
breaks the loop: `wg.Wait()` and `return nil`.  The result is the trace of effects and
what the outermost `PlayVideo` returns. -/
def commandLoop (getVideoURL : String → Option String) (episodes : List Episode) :
    Nat → List (List Char) → List Effect × Ret
  | _, [] => ([Effect.print "Failed to read command", Effect.waitPlayer], Ret.nil)
  | currentEpisodeIndex, buffer :: stdin =>
    match bufferedCommands getVideoURL episodes currentEpisodeIndex buffer with
    | (effs, BufferEnd.more i) =>
      let r := commandLoop getVideoURL episodes i stdin
      (effs ++ r.1, r.2)
    | (effs, BufferEnd.stop ret) => (effs, ret)

/-- The function `PlayVideo(videoURL, episodes, currentEpisodeNum)` reading `stdin`. -/
def PlayVideo (getVideoURL : String → Option String) (videoURL : String)
    (episodes : List Episode) (currentEpisodeNum : Int) (stdin : List (List Char)) :
    List Effect × Ret :=
  match enterPlayVideo videoURL episodes currentEpisodeNum with
  | (effs, none) => (effs, Ret.error "current episode not found")
  | (effs, some i) =>
    let r := commandLoop getVideoURL episodes i stdin
    (effs ++ r.1, r.2)

/-! ## `isValidURL` and the peer check of `SafeTransport` (lines 55-72, 99-103, 114-117) -/

/-- Model of `appendDecimal` of package `netip`: an octet in decimal digits. -/
def appendDecimal (x : Nat) : List Nat :=
  (if x ≥ 100 then [48 + x / 100] else []) ++
    (if x ≥ 10 then [48 + x / 10 % 10] else []) ++ [48 + x % 10]

/-- The digit of `0123456789abcdef` at position `d`. -/
def hexDigit (d : Nat) : Nat :=
  if d < 10 then 48 + d else 87 + d

/-- Model of `appendHex` of package `netip`: a 16-bit group in hexadecimal digits without
leading zeros. -/
def appendHex (x : Nat) : List Nat :=
  (if x ≥ 0x1000 then [hexDigit (x / 4096)] else []) ++
    (if x ≥ 0x100 then [hexDigit (x / 256 % 16)] else []) ++
    (if x ≥ 0x10 then [hexDigit (x / 16 % 16)] else []) ++ [hexDigit (x % 16)]

/-- The eight 16-bit groups of a 16-byte address (`v6u16`). -/
def v6Groups (ip : IP) : List Nat :=
  (List.range 8).map fun i => ip.getD (2 * i) 0 * 256 + ip.getD (2 * i + 1) 0

/-- The first loop of `appendTo6`: the first longest run of at least two zero groups, as
`(zeroStart, zeroEnd)`; `none` stands for the initial `(255, 255)`. -/
def zeroRun (groups : List Nat) : Option (Nat × Nat) :=
  (List.range 8).foldl
    (fun best i =>
      let l := ((groups.drop i).takeWhile fun g => g = 0).length
      let bestLen := match best with
        | some (zeroStart, zeroEnd) => zeroEnd - zeroStart
        | none => 0
      if l ≥ 2 ∧ l > bestLen then some (i, i + l) else best)
    none

/-- The second loop of `appendTo6` from group `i` on: the groups in hexadecimal separated
by `:`, the zero run written `::`. -/
def v6Text (groups : List Nat) (zero : Option (Nat × Nat)) : Nat → Nat → List Nat
  | 0, _ => []
  | fuel + 1, i =>
    if i ≥ 8 then []
    else
      match zero with
      | some (zeroStart, zeroEnd) =>
        if i = zeroStart then
          [58, 58] ++
            (if zeroEnd ≥ 8 then []
             else appendHex (groups.getD zeroEnd 0) ++ v6Text groups zero fuel (zeroEnd + 1))
        else
          (if i > 0 then [58] else []) ++ appendHex (groups.getD i 0) ++
            v6Text groups zero fuel (i + 1)
      | none =>
        (if i > 0 then [58] else []) ++ appendHex (groups.getD i 0) ++
          v6Text groups zero fuel (i + 1)

/-- Model of `IP.String`: dotted decimal for an IPv4 address (also in its 16-byte form),
the text of `netip.Addr.String` for any other 16-byte address. -/
def ipString (ip : IP) : String :=
  if ip.length = 0 then "<nil>"
  else if ip.length ≠ 4 ∧ ip.length ≠ 16 then
    String.mk ((63 :: ip.flatMap fun b => [hexDigit (b / 16), hexDigit (b % 16)]).map Char.ofNat)
  else if (IP.To4 ip).length = 4 then
    let p4 := IP.To4 ip
    String.mk ((appendDecimal (p4.getD 0 0) ++ [46] ++ appendDecimal (p4.getD 1 0) ++ [46] ++
      appendDecimal (p4.getD 2 0) ++ [46] ++ appendDecimal (p4.getD 3 0)).map Char.ofNat)
  else String.mk ((v6Text (v6Groups ip) (zeroRun (v6Groups ip)) 8 0).map Char.ofNat)

/-- The function `isValidURL` (lines 55-72).  `hostname url` is `neturl.Parse(url)`
followed by `Hostname()`; it is `none` when `Parse` returns an error. -/
def isValidURL (hostname : String → Option String) (url : String) : Bool :=
  match hostname url with
  | none => false
  | some host =>
    let ip := ParseIP host
    if ip ≠ [] then !IsDisallowedIP (ipString ip) else true

/-- The check `SafeTransport` makes on an established connection, plain (lines 99-103) or
TLS (lines 114-117).  `split` is the result of
`net.SplitHostPort(c.RemoteAddr().String())`, `none` when it fails: the error is dropped
and `ip` is then the empty string. -/
def peerCheck (split : Option (String × String)) : Ret :=
  let ip := match split with
    | some (host, _) => host
    | none => ""
  if IsDisallowedIP ip then Ret.error "ip address is not allowed" else Ret.nil

/-! ## `extractActualVideoURL` (lines 174-206) -/

/-- What the environment decides for one call of `extractActualVideoURL`. -/
structure SourceEnv where
  /-- Result of `SafeGet(videoSrc)`: status code and status line; `none` when the call
  returns an error. -/
  get : Option (Int × String)
  /-- Whether `io.ReadAll(response.Body)` succeeds. -/
  readAllOk : Bool
  /-- Result of `json.Unmarshal(body, &videoResponse)`: the decoded `Data`; `none` when
  it returns an error. -/
  unmarshal : Option (List VideoData)

/-- The function `extractActualVideoURL`: the returned string and error. -/
def extractActualVideoURL (env : SourceEnv) : String × Ret :=
  match env.get with
  | none => ("", Ret.error "failed to fetch video source")
  | some (statusCode, status) =>
    if statusCode ≠ 200 then ("", Ret.error ("request failed with status: " ++ status))
    else if env.readAllOk = false then ("", Ret.error "failed to read response body")
    else
      match env.unmarshal with
      | none => ("", Ret.error "failed to unmarshal JSON response")
      | some data =>
        if data.length = 0 then ("", Ret.error "no video data found in the response")
        else
          let highestQualityVideoURL := selectHighestQualityVideo data
          if highestQualityVideoURL = "" then ("", Ret.error "no suitable video quality found")
          else (highestQualityVideoURL, Ret.nil)

/-! # Theorems -/

/-! ## Chunk ranges -/

/-- With a non-negative length and at least one part the part size is not negative. -/
theorem chunkSize_nonneg (S N : Int) (hS : 0 ≤ S) (hN : 1 ≤ N) : 0 ≤ chunkSize S N := by
  unfold chunkSize
  rw [Int.tdiv_eq_ediv hS (by omega)]
  exact Int.ediv_nonneg hS (by omega)

/-- The parts of size `chunkSize` fit into the content. -/
theorem chunkSize_mul_le (S N : Int) (hS : 0 ≤ S) (hN : 1 ≤ N) : chunkSize S N * N ≤ S := by
  unfold chunkSize
  rw [Int.tdiv_eq_ediv hS (by omega)]
  exact Int.ediv_mul_le S (by omega)

/-- Every value the range computation produces lies between `-1` and the content
length, so the computation does not leave the range of a Go `int`. -/
theorem chunk_values_bounded (S N i : Int) (hS : 0 ≤ S) (hN : 1 ≤ N) (hi0 : 0 ≤ i) (hi : i < N) :
    0 ≤ chunkFrom S N i ∧ chunkFrom S N i ≤ S ∧
    -1 ≤ chunkFrom S N i + chunkSize S N - 1 ∧ chunkFrom S N i + chunkSize S N - 1 ≤ S - 1 := by
  have h0 := chunkSize_nonneg S N hS hN
  have h1 := chunkSize_mul_le S N hS hN
  unfold chunkFrom
  have h2 : 0 ≤ i * chunkSize S N := mul_nonneg hi0 h0
  have h3 : (i + 1) * chunkSize S N ≤ chunkSize S N * N := by
    rw [mul_comm]; exact mul_le_mul_of_nonneg_left (by omega) h0
  have h4 : (i + 1) * chunkSize S N = i * chunkSize S N + chunkSize S N := by ring
  refine ⟨h2, ?_, ?_, ?_⟩ <;> omega

/-- The last part ends at the last byte. -/
theorem chunkTo_last (S N : Int) : chunkTo S N (N - 1) = S - 1 := by
  simp [chunkTo]

/-- Any other part ends `chunkSize - 1` bytes after its start. -/
theorem chunkTo_of_ne (S N i : Int) (h : i ≠ N - 1) :
    chunkTo S N i = chunkFrom S N i + chunkSize S N - 1 := by
  simp [chunkTo, h]

/-- C1: for a content length `S ≥ 0` and `N ≥ 1` parts, the ranges `[from_i, to_i]` that
`DownloadVideo` computes start at 0, each next range starts right after the previous one
ends, the last one ends at `S - 1`, every byte of `[0, S)` lies in exactly one range and
no range holds a byte outside `[0, S)`. -/
theorem chunk_ranges_partition (S N : Int) (hS : 0 ≤ S) (hN : 1 ≤ N) :
    chunkFrom S N 0 = 0 ∧
    (∀ i, 0 ≤ i → i < N - 1 → chunkFrom S N (i + 1) = chunkTo S N i + 1) ∧
    chunkTo S N (N - 1) = S - 1 ∧
    (∀ b, 0 ≤ b → b < S →
      ∃! i, 0 ≤ i ∧ i < N ∧ chunkFrom S N i ≤ b ∧ b ≤ chunkTo S N i) ∧
    (∀ i b, 0 ≤ i → i < N → chunkFrom S N i ≤ b → b ≤ chunkTo S N i → 0 ≤ b ∧ b < S) := by
  have h0 := chunkSize_nonneg S N hS hN
  have h1 := chunkSize_mul_le S N hS hN
  refine ⟨by simp [chunkFrom], ?_, chunkTo_last S N, ?_, ?_⟩
  · intro i _ hi
    rw [chunkTo_of_ne S N i (by omega)]
    simp only [chunkFrom]
    ring
  · intro b hb0 hbS
    have hmono : ∀ j, j < N - 1 → (j + 1) * chunkSize S N ≤ (N - 1) * chunkSize S N :=
      fun j hj => mul_le_mul_of_nonneg_right (by omega) h0
    have hexp : ∀ j : Int, (j + 1) * chunkSize S N = j * chunkSize S N + chunkSize S N :=
      fun j => by ring
    have hlast : (N - 1) * chunkSize S N ≤ S := by
      have := hexp (N - 1)
      have h2 : (N - 1 + 1) * chunkSize S N = chunkSize S N * N := by ring
      omega
    by_cases hb : b < (N - 1) * chunkSize S N
    · have hcs : 0 < chunkSize S N := by
        rcases h0.lt_or_eq with h | h
        · exact h
        · rw [← h] at hb; simp at hb; omega
      have hq : b / chunkSize S N < N - 1 := Int.ediv_lt_of_lt_mul hcs hb
      have hq0 : 0 ≤ b / chunkSize S N := Int.ediv_nonneg hb0 h0
      have hle : b / chunkSize S N * chunkSize S N ≤ b := Int.ediv_mul_le b (by omega)
      have hlt : b < (b / chunkSize S N + 1) * chunkSize S N :=
        Int.lt_ediv_add_one_mul_self b hcs
      refine ⟨b / chunkSize S N, ⟨hq0, by omega, ?_, ?_⟩, ?_⟩
      · simpa [chunkFrom] using hle
      · rw [chunkTo_of_ne S N _ (by omega)]
        simp only [chunkFrom]
        have := hexp (b / chunkSize S N)
        omega
      · rintro j ⟨hj0, hjN, hjf, hjt⟩
        by_cases hj : j = N - 1
        · subst hj
          simp only [chunkFrom] at hjf
          omega
        · rw [chunkTo_of_ne S N j hj] at hjt
          simp only [chunkFrom] at hjf hjt
          have hu : b / chunkSize S N = j ∧ b % chunkSize S N = b - chunkSize S N * j := by
            rw [Int.ediv_emod_unique hcs]
            have : chunkSize S N * j = j * chunkSize S N := by ring
            refine ⟨by omega, by omega, by omega⟩
          exact hu.1.symm
    · refine ⟨N - 1, ⟨by omega, by omega, ?_, ?_⟩, ?_⟩
      · simp only [chunkFrom]; omega
      · rw [chunkTo_last]; omega
      · rintro j ⟨hj0, hjN, hjf, hjt⟩
        by_contra hj
        rw [chunkTo_of_ne S N j hj] at hjt
        simp only [chunkFrom] at hjf hjt
        have := hmono j (by omega)
        have := hexp j
        omega
  · intro i b hi0 hi hf ht
    have hb := chunk_values_bounded S N i hS hN hi0 hi
    refine ⟨by omega, ?_⟩
    by_cases hj : i = N - 1
    · subst hj; rw [chunkTo_last] at ht; omega
    · rw [chunkTo_of_ne S N i hj] at ht; omega

/-- Witness of `chunk_ranges_partition`: 10 bytes in 4 parts. -/
theorem chunk_ranges_partition_witness :
    chunkFrom 10 4 0 = 0 ∧
    (∀ i, 0 ≤ i → i < (4 : Int) - 1 → chunkFrom 10 4 (i + 1) = chunkTo 10 4 i + 1) ∧
    chunkTo 10 4 (4 - 1) = 10 - 1 ∧
    (∀ b, 0 ≤ b → b < (10 : Int) →
      ∃! i, 0 ≤ i ∧ i < (4 : Int) ∧ chunkFrom 10 4 i ≤ b ∧ b ≤ chunkTo 10 4 i) ∧
    (∀ i b, 0 ≤ i → i < (4 : Int) → chunkFrom 10 4 i ≤ b → b ≤ chunkTo 10 4 i →
      0 ≤ b ∧ b < (10 : Int)) :=
  chunk_ranges_partition 10 4 (by decide) (by decide)
/-! ## File-system frame lemmas for the downloader -/

theorem FS.write_same (fs : FS) (p : Path) (b : Bytes) : (fs.write p b) p = some b := by
  simp [FS.write]

theorem FS.write_other (fs : FS) (p q : Path) (b : Bytes) (h : q ≠ p) :
    (fs.write p b) q = fs q := by
  simp [FS.write, h]

theorem FS.remove_same (fs : FS) (p : Path) : (fs.remove p) p = none := by
  simp [FS.remove]

theorem FS.remove_other (fs : FS) (p q : Path) (h : q ≠ p) : (fs.remove p) q = fs q := by
  simp [FS.remove, h]

/-- A chunk task touches no path but its own part file. -/
theorem chunkTask_other (env : Env) (f t : Int) (i : Nat) (fs : FS) (p : Path)
    (h : p ≠ Path.part i) : (chunkTask env f t i fs).1 p = fs p := by
  unfold chunkTask
  split
  · rfl
  · split
    · rfl
    · split
      · rfl
      · split
        · rfl
        · exact FS.write_other _ _ _ _ h

/-- What a chunk task leaves in its part file depends on the file system only through
that file. -/
theorem chunkTask_part_congr (env : Env) (f t : Int) (i : Nat) (fs0 fs1 : FS)
    (h : fs0 (Path.part i) = fs1 (Path.part i)) :
    (chunkTask env f t i fs0).1 (Path.part i) = (chunkTask env f t i fs1).1 (Path.part i) := by
  unfold chunkTask
  split
  · exact h
  · split
    · exact h
    · split
      · exact h
      · split
        · exact h
        · simp [FS.write]

/-- The tasks of other parts leave a path alone. -/
theorem runTasks_other (env : Env) (S N : Int) (p : Path) :
    ∀ (l : List Nat) (fs : FS), (∀ i ∈ l, p ≠ Path.part i) → runTasks env S N l fs p = fs p
  | [], _, _ => rfl
  | i :: rest, fs, h => by
    simp only [runTasks]
    rw [runTasks_other env S N p rest _ (fun j hj => h j (List.mem_cons_of_mem _ hj))]
    exact chunkTask_other env _ _ i fs p (h i (List.mem_cons_self _ _))

/-- After the join, part file `i` is what task `i` alone makes of it. -/
theorem runTasks_part (env : Env) (S N : Int) (i : Nat) :
    ∀ (l : List Nat) (fs : FS), l.Nodup → i ∈ l →
      runTasks env S N l fs (Path.part i) =
        (chunkTask env (chunkFrom S N i) (chunkTo S N i) i fs).1 (Path.part i)
  | [], _, _, h => by simp at h
  | j :: rest, fs, hnd, h => by
    simp only [runTasks]
    rw [List.nodup_cons] at hnd
    by_cases hij : i = j
    · subst hij
      exact runTasks_other env S N _ rest _ (fun k hk hp => hnd.1 (by injection hp with e; rw [e]; exact hk))
    · have hmem : i ∈ rest := by
        rcases List.mem_cons.mp h with h | h
        · exact absurd h hij
        · exact h
      rw [runTasks_part env S N i rest _ hnd.2 hmem]
      apply chunkTask_part_congr
      exact chunkTask_other env _ _ j fs _ (by intro hp; injection hp with e; exact hij e)

/-- The chunk tasks do not touch the destination. -/
theorem runTasks_dest (env : Env) (S N : Int) (l : List Nat) (fs : FS) :
    runTasks env S N l fs Path.dest = fs Path.dest :=
  runTasks_other env S N Path.dest l fs (fun _ _ h => by cases h)

/-- When every part of `l` exists and every copy succeeds, the merge loop returns `nil`
and has appended the parts to the destination in list order. -/
theorem mergeLoop_all (env : Env) (X : Nat → Bytes) :
    ∀ (l : List Nat) (fs : FS) (out : Bytes), l.Nodup → fs Path.dest = some out →
      (∀ i ∈ l, fs (Path.part i) = some (X i)) → (∀ i ∈ l, env.copyErr i = none) →
      (mergeLoop env l fs).1 = Ret.nil ∧
      (mergeLoop env l fs).2 Path.dest = some (out ++ l.flatMap X)
  | [], fs, out, _, hd, _, _ => by simp [mergeLoop, hd]
  | i :: rest, fs, out, hnd, hd, hp, hc => by
    rw [List.nodup_cons] at hnd
    have hpi := hp i (List.mem_cons_self _ _)
    have hci := hc i (List.mem_cons_self _ _)
    simp only [mergeLoop, hpi, hci, hd, Option.getD_some]
    have ih := mergeLoop_all env X rest
      ((fs.write Path.dest (out ++ X i)).remove (Path.part i)) (out ++ X i) hnd.2
      (by rw [FS.remove_other _ _ _ (by simp), FS.write_same])
      (fun j hj => by
        have hji : j ≠ i := fun e => hnd.1 (e ▸ hj)
        rw [FS.remove_other _ _ _ (by simpa using hji), FS.write_other _ _ _ _ (by simp)]
        exact hp j (List.mem_cons_of_mem _ hj))
      (fun j hj => hc j (List.mem_cons_of_mem _ hj))
    simpa [List.flatMap_cons, List.append_assoc] using ih

/-! ## Split and merge -/

/-- On natural numbers the part size is the quotient. -/
theorem chunkSize_natCast (S N : Nat) : chunkSize (S : Int) (N : Int) = ((S / N : Nat) : Int) := by
  simp [chunkSize, Int.tdiv]

/-- A part that is not the last one holds the `chunkSize` bytes after its start. -/
theorem byteRange_inner (c : Bytes) (N i : Nat) (h : i + 1 < N) :
    byteRange c (chunkFrom c.length N i) (chunkTo c.length N i) =
      (c.drop (i * (c.length / N))).take (c.length / N) := by
  have hne : (i : Int) ≠ (N : Int) - 1 := by omega
  rw [chunkTo_of_ne _ _ _ hne]
  simp only [chunkFrom, chunkSize_natCast, byteRange]
  have h1 : ((i : Int) * ((c.length / N : Nat) : Int)).toNat = i * (c.length / N) := by
    rw [← Nat.cast_mul]; exact Int.toNat_natCast _
  have h2 : ((i : Int) * ((c.length / N : Nat) : Int) + ((c.length / N : Nat) : Int) - 1 + 1 -
      (i : Int) * ((c.length / N : Nat) : Int)).toNat = c.length / N := by
    have : (i : Int) * ((c.length / N : Nat) : Int) + ((c.length / N : Nat) : Int) - 1 + 1 -
      (i : Int) * ((c.length / N : Nat) : Int) = ((c.length / N : Nat) : Int) := by ring
    rw [this]; exact Int.toNat_natCast _
  rw [h1, h2]

/-- The last part holds everything from its start to the end of the content. -/
theorem byteRange_last (c : Bytes) (N : Nat) (hN : 1 ≤ N) :
    byteRange c (chunkFrom c.length N ((N - 1 : Nat) : Int)) (chunkTo c.length N ((N - 1 : Nat) : Int)) =
      c.drop ((N - 1) * (c.length / N)) := by
  have hc : ((N - 1 : Nat) : Int) = (N : Int) - 1 := by omega
  rw [hc, chunkTo_last, ← hc]
  simp only [chunkFrom, chunkSize_natCast, byteRange]
  have h1 : (((N - 1 : Nat) : Int) * ((c.length / N : Nat) : Int)).toNat =
      (N - 1) * (c.length / N) := by
    rw [← Nat.cast_mul]; exact Int.toNat_natCast _
  rw [h1]
  apply List.take_of_length_le
  rw [List.length_drop, ← Nat.cast_mul]
  omega

/-- The first `k` parts, none of them the last, make up the first `k * chunkSize` bytes. -/
theorem flatMap_inner_parts (c : Bytes) (N : Nat) :
    ∀ k, k + 1 ≤ N →
      (List.range k).flatMap
          (fun i : Nat => byteRange c (chunkFrom c.length N i) (chunkTo c.length N i)) =
        c.take (k * (c.length / N))
  | 0, _ => by simp
  | k + 1, h => by
    rw [List.range_succ, List.flatMap_append, flatMap_inner_parts c N k (by omega)]
    simp only [List.flatMap_cons, List.flatMap_nil, List.append_nil]
    rw [byteRange_inner c N k (by omega), Nat.succ_mul, List.take_add]

/-- The parts in index order make up the content. -/
theorem flatMap_parts (c : Bytes) (N : Nat) (hN : 1 ≤ N) :
    (List.range N).flatMap
        (fun i : Nat => byteRange c (chunkFrom c.length N i) (chunkTo c.length N i)) = c := by
  obtain ⟨k, rfl⟩ : ∃ k, N = k + 1 := ⟨N - 1, by omega⟩
  rw [List.range_succ, List.flatMap_append, flatMap_inner_parts c (k + 1) k (by omega)]
  simp only [List.flatMap_cons, List.flatMap_nil, List.append_nil]
  have := byteRange_last c (k + 1) (by omega)
  simp only [Nat.add_sub_cancel] at this
  rw [this, List.take_append_drop]

/-- Unfolding of `DownloadVideo` for a job that gets as far as the merge: the probe
answered 200 or 206 with a content length, there is at least one part, the progress
pool started and the destination could be created. -/
theorem DownloadVideo_merge (env : Env) (N : Nat) (fs : FS) (status S : Int)
    (header ranges : String) (hN : 1 ≤ N)
    (hhead : env.head = some (status, header, ranges))
    (hstatus : status = 200 ∨ status = 206)
    (hlen : Atoi (goBytes header) = (S, none))
    (hpool : env.poolOk = true) (hcreate : env.destCreateOk = true) :
    DownloadVideo env N fs =
      ⟨(mergeLoop env (List.range N)
          ((runTasks env S N (List.range N) fs).write Path.dest [])).1, N,
       (mergeLoop env (List.range N)
          ((runTasks env S N (List.range N) fs).write Path.dest [])).2⟩ := by
  have h1 : ¬ (status ≠ 200 ∧ status ≠ 206) := by omega
  have h2 : ¬ ((N : Int) ≤ 0) := by omega
  simp [DownloadVideo, hhead, h1, hlen, h2, hpool, hcreate]

/-- C2: split and merge round trip.  For a resource `c` and `N ≥ 1` parts, when the job
reaches the merge and every chunk task `i` leaves in part file `i` exactly the bytes
`c[from_i .. to_i]` of its range, `DownloadVideo` returns `nil` and the destination file,
the concatenation of the part files in index order, is `c` byte for byte. -/
theorem download_roundtrip (env : Env) (c : Bytes) (N : Nat) (fs : FS) (status : Int)
    (header ranges : String) (hN : 1 ≤ N)
    (hhead : env.head = some (status, header, ranges))
    (hstatus : status = 200 ∨ status = 206)
    (hlen : Atoi (goBytes header) = ((c.length : Int), none))
    (hpool : env.poolOk = true) (hcreate : env.destCreateOk = true)
    (hcopy : ∀ i, i < N → env.copyErr i = none)
    (htask : ∀ i, i < N →
      (chunkTask env (chunkFrom c.length N i) (chunkTo c.length N i) i fs).1 (Path.part i) =
        some (byteRange c (chunkFrom c.length N i) (chunkTo c.length N i))) :
    (DownloadVideo env N fs).ret = Ret.nil ∧ (DownloadVideo env N fs).fs Path.dest = some c := by
  rw [DownloadVideo_merge env N fs status c.length header ranges hN hhead hstatus hlen hpool
    hcreate]
  have h := mergeLoop_all env
    (fun i : Nat => byteRange c (chunkFrom c.length N i) (chunkTo c.length N i))
    (List.range N) ((runTasks env c.length N (List.range N) fs).write Path.dest []) []
    (List.nodup_range N) (FS.write_same _ _ _)
    (fun i hi => by
      rw [FS.write_other _ _ _ _ (by simp),
        runTasks_part env _ _ i _ fs (List.nodup_range N) hi]
      exact htask i (List.mem_range.mp hi))
    (fun i hi => hcopy i (List.mem_range.mp hi))
  rw [flatMap_parts c N hN] at h
  simpa using h

/-- Witness of `download_roundtrip`: ten bytes in four parts from a server that honours
ranges. -/
theorem download_roundtrip_witness :
    (DownloadVideo (healthyEnv tenBytes "10") (4 : Nat) emptyFS).ret = Ret.nil ∧
    (DownloadVideo (healthyEnv tenBytes "10") (4 : Nat) emptyFS).fs Path.dest = some tenBytes :=
  download_roundtrip (healthyEnv tenBytes "10") tenBytes 4 emptyFS 200 "10" "bytes"
    (by decide) rfl (by decide) (by decide) rfl rfl (fun _ _ => rfl)
    (by intro i hi; interval_cases i <;> decide)

/-! ## Size of the merged file -/

/-- When the merge loop returns `nil`, the destination holds what it held before followed
by the parts in list order. -/
theorem mergeLoop_nil_dest (env : Env) :
    ∀ (l : List Nat) (fs : FS) (out : Bytes), l.Nodup → fs Path.dest = some out →
      (mergeLoop env l fs).1 = Ret.nil →
      (mergeLoop env l fs).2 Path.dest =
        some (out ++ l.flatMap (fun i => (fs (Path.part i)).getD []))
  | [], fs, out, _, hd, _ => by simp [mergeLoop, hd]
  | i :: rest, fs, out, hnd, hd, hret => by
    rw [List.nodup_cons] at hnd
    cases hpi : fs (Path.part i) with
    | none => simp [mergeLoop, hpi] at hret
    | some data =>
      cases hci : env.copyErr i with
      | some k => simp [mergeLoop, hpi, hci] at hret
      | none =>
        simp only [mergeLoop, hpi, hci, hd, Option.getD_some] at hret ⊢
        rw [mergeLoop_nil_dest env rest _ (out ++ data) hnd.2
          (by rw [FS.remove_other _ _ _ (by simp), FS.write_same]) hret]
        have hcongr : rest.flatMap (fun j =>
            ((((fs.write Path.dest (out ++ data)).remove (Path.part i)) (Path.part j)).getD [])) =
            rest.flatMap (fun j => (fs (Path.part j)).getD []) := by
          apply List.flatMap_congr
          intro j hj
          have hji : j ≠ i := fun e => hnd.1 (e ▸ hj)
          rw [FS.remove_other _ _ _ (by simpa using hji), FS.write_other _ _ _ _ (by simp)]
        rw [hcongr]
        simp [List.flatMap_cons, List.append_assoc, hpi]

/-- The sizes of the first `k` ranges, none of them the last, add up to the start of
range `k`. -/
theorem sum_inner_ranges (S N : Int) :
    ∀ k : Nat, (k : Int) + 1 ≤ N →
      ((List.range k).map (fun i : Nat => chunkTo S N i + 1 - chunkFrom S N i)).sum =
        chunkFrom S N k
  | 0, _ => by simp [chunkFrom]
  | k + 1, h => by
    rw [List.range_succ, List.map_append, List.sum_append,
      sum_inner_ranges S N k (by omega)]
    have hne : (k : Int) ≠ N - 1 := by omega
    simp only [List.map_cons, List.map_nil, List.sum_cons, List.sum_nil]
    rw [chunkTo_of_ne S N k hne]
    simp only [chunkFrom]
    push_cast
    ring

/-- The sizes of all `N` ranges add up to the content length. -/
theorem sum_ranges (S : Int) (N : Nat) (hN : 1 ≤ N) :
    ((List.range N).map (fun i : Nat => chunkTo S N i + 1 - chunkFrom S N i)).sum = S := by
  obtain ⟨k, rfl⟩ : ∃ k, N = k + 1 := ⟨N - 1, by omega⟩
  rw [List.range_succ, List.map_append, List.sum_append,
    sum_inner_ranges S ((k + 1 : Nat) : Int) k (by omega)]
  have hk : (k : Int) = ((k + 1 : Nat) : Int) - 1 := by omega
  simp only [List.map_cons, List.map_nil, List.sum_cons, List.sum_nil]
  nth_rewrite 2 [hk]
  rw [chunkTo_last]
  ring

/-- A call that returns `nil` got as far as the merge. -/
theorem DownloadVideo_nil_inv (env : Env) (N : Int) (fs : FS) (status S : Int)
    (header ranges : String) (hhead : env.head = some (status, header, ranges))
    (hlen : Atoi (goBytes header) = (S, none))
    (hret : (DownloadVideo env N fs).ret = Ret.nil) :
    (status = 200 ∨ status = 206) ∧ 1 ≤ N ∧ env.poolOk = true ∧ env.destCreateOk = true := by
  by_cases h1 : status ≠ 200 ∧ status ≠ 206
  · simp [DownloadVideo, hhead, h1] at hret
  · by_cases h2 : N ≤ 0
    · simp [DownloadVideo, hhead, h1, hlen, h2] at hret
    · by_cases h3 : env.poolOk = false
      · simp [DownloadVideo, hhead, h1, hlen, h2, h3] at hret
      · by_cases h4 : env.destCreateOk = false
        · simp [DownloadVideo, hhead, h1, hlen, h2, h3, h4] at hret
        · refine ⟨by omega, by omega, by simpa using h3, by simpa using h4⟩

/-- C3 (amended): when `DownloadVideo`, started with no part file present, returns `nil`,
the destination file is the concatenation in index order of what the chunk tasks wrote,
so its length is the sum of the bytes written by all chunk tasks; and when every task
wrote as many bytes as its range holds, that length is the probed content length.
(Nothing is said about a run in which a task wrote less: the code makes no size check.) -/
theorem download_nil_size (env : Env) (N : Int) (fs : FS) (status S : Int)
    (header ranges : String) (hhead : env.head = some (status, header, ranges))
    (hlen : Atoi (goBytes header) = (S, none))
    (hfresh : ∀ i, fs (Path.part i) = none)
    (hret : (DownloadVideo env N fs).ret = Ret.nil) :
    ∃ b, (DownloadVideo env N fs).fs Path.dest = some b ∧
      b = (List.range N.toNat).flatMap (bytesWritten env S N) ∧
      b.length = ((List.range N.toNat).map (fun i => (bytesWritten env S N i).length)).sum ∧
      ((∀ i, i < N.toNat →
          ((bytesWritten env S N i).length : Int) = chunkTo S N i + 1 - chunkFrom S N i) →
        (b.length : Int) = S) := by
  obtain ⟨hstatus, hN, hpool, hcreate⟩ :=
    DownloadVideo_nil_inv env N fs status S header ranges hhead hlen hret
  obtain ⟨n, rfl⟩ : ∃ n : Nat, N = n := ⟨N.toNat, by omega⟩
  have hn : 1 ≤ n := by omega
  rw [DownloadVideo_merge env n fs status S header ranges hn hhead hstatus hlen hpool hcreate]
    at hret ⊢
  simp only [Int.toNat_natCast] at *
  have hd := mergeLoop_nil_dest env (List.range n)
    ((runTasks env S n (List.range n) fs).write Path.dest []) [] (List.nodup_range n)
    (FS.write_same _ _ _) hret
  have hcongr : (List.range n).flatMap (fun i =>
      ((((runTasks env S n (List.range n) fs).write Path.dest []) (Path.part i)).getD [])) =
      (List.range n).flatMap (bytesWritten env S n) := by
    apply List.flatMap_congr
    intro i hi
    rw [FS.write_other _ _ _ _ (by simp), runTasks_part env _ _ i _ fs (List.nodup_range n) hi,
      chunkTask_part_congr env _ _ i fs (fun _ => none) (hfresh i)]
    rfl
  rw [hcongr, List.nil_append] at hd
  refine ⟨_, hd, rfl, ?_, ?_⟩
  · rw [List.length_flatMap]
    rfl
  · intro hfull
    rw [List.length_flatMap, Nat.cast_list_sum, List.map_map]
    refine Eq.trans ?_ (sum_ranges S n hn)
    congr 1
    apply List.map_congr_left
    intro i hi
    simpa using hfull i (List.mem_range.mp hi)

/-- C3 (counterexample): in the run `brokenBodyEnv` the task of part 1 ends with a read
error after one byte of its two-byte range, yet `DownloadVideo` returns `nil`, and the
destination file has 7 bytes while the probed content length is 8.  And in the run
`failedRequestEnv` started with a part file left by an earlier run, `DownloadVideo`
returns `nil` with a destination of 8 bytes while the chunk tasks wrote 6 bytes in all. -/
theorem short_chunk_returns_nil :
    Atoi (goBytes "8") = (8, none) ∧
    (chunkTask brokenBodyEnv (chunkFrom 8 4 1) (chunkTo 8 4 1) 1 emptyFS).2 =
      TaskEnd.readError ∧
    bytesWritten brokenBodyEnv 8 4 1 = [3] ∧
    (DownloadVideo brokenBodyEnv 4 emptyFS).ret = Ret.nil ∧
    (DownloadVideo brokenBodyEnv 4 emptyFS).fs Path.dest = some [1, 2, 3, 5, 6, 7, 8] ∧
    (DownloadVideo failedRequestEnv 4 stalePartFS).ret = Ret.nil ∧
    (DownloadVideo failedRequestEnv 4 stalePartFS).fs Path.dest =
      some [1, 2, 3, 4, 9, 9, 7, 8] ∧
    ((List.range 4).map fun i => (bytesWritten failedRequestEnv 8 4 i).length).sum = 6 := by
  decide

/-- Witness of `download_nil_size`: eight bytes in four parts from a server that honours
ranges. -/
theorem download_nil_size_witness :
    ∃ b, (DownloadVideo (healthyEnv eightBytes "8") 4 emptyFS).fs Path.dest = some b ∧
      b = (List.range (4 : Int).toNat).flatMap (bytesWritten (healthyEnv eightBytes "8") 8 4) ∧
      b.length = ((List.range (4 : Int).toNat).map
        (fun i => (bytesWritten (healthyEnv eightBytes "8") 8 4 i).length)).sum ∧
      ((∀ i, i < (4 : Int).toNat →
          ((bytesWritten (healthyEnv eightBytes "8") 8 4 i).length : Int) =
            chunkTo 8 4 i + 1 - chunkFrom 8 4 i) →
        (b.length : Int) = 8) :=
  download_nil_size (healthyEnv eightBytes "8") 4 emptyFS 200 8 "8" "bytes" rfl (by decide)
    (fun _ => rfl) (by decide)

/-! ## A failed chunk request -/

/-- The read loop ends with a write error, a read error or normally. -/
theorem readLoop_end (last : ReadEvent) (lastErr : ReadErr) :
    ∀ (reads : List ReadEvent) (file : Bytes),
      (readLoop file last lastErr reads).2 = TaskEnd.writeError ∨
      (readLoop file last lastErr reads).2 = TaskEnd.readError ∨
      (readLoop file last lastErr reads).2 = TaskEnd.finished
  | [], file => by
    simp only [readLoop]
    split
    · simp
    · split <;> simp
  | ev :: rest, file => by
    simp only [readLoop]
    split
    · simp
    · exact readLoop_end last lastErr rest _

/-- A chunk task whose request failed has changed nothing. -/
theorem chunkTask_doError (env : Env) (f t : Int) (i : Nat) (fs : FS)
    (h : (chunkTask env f t i fs).2 = TaskEnd.doError) : (chunkTask env f t i fs).1 = fs := by
  unfold chunkTask at h ⊢
  split
  · rfl
  · split
    · rfl
    · split
      · rfl
      · split
        · rfl
        · rename_i resp _ hc
          simp only [*, if_false] at h
          rcases readLoop_end resp.last resp.lastErr resp.reads [] with h1 | h1 | h1 <;>
            rw [h1] at h <;> cases h

/-- When part `k` is missing, the merge loop returns an error at `k`; the destination
then holds what it held before and at most the parts listed before `k`. -/
theorem mergeLoop_missing (env : Env) (L k : Nat) (post : List Nat) :
    ∀ (pre : List Nat) (fs : FS) (out : Bytes), (pre ++ k :: post).Nodup →
      fs Path.dest = some out → fs (Path.part k) = none →
      (∀ i ∈ pre, ∃ b, fs (Path.part i) = some b ∧ b.length ≤ L) →
      ∃ msg b, (mergeLoop env (pre ++ k :: post) fs).1 = Ret.error msg ∧
        (mergeLoop env (pre ++ k :: post) fs).2 Path.dest = some b ∧
        b.length ≤ out.length + pre.length * L
  | [], fs, out, _, hd, hk, _ => by
    refine ⟨"open: no such file or directory", out, ?_, ?_, by simp⟩
    · simp only [List.nil_append, mergeLoop, hk]
    · simp only [List.nil_append, mergeLoop, hk, hd]
  | i :: pre, fs, out, hnd, hd, hk, hp => by
    obtain ⟨b, hb, hbL⟩ := hp i (List.mem_cons_self _ _)
    rw [List.cons_append, List.nodup_cons] at hnd
    have hik : k ≠ i := fun e => hnd.1 (by rw [← e]; simp)
    cases hci : env.copyErr i with
    | some j =>
      refine ⟨"copy failed", out ++ b.take j, ?_, ?_, ?_⟩
      · simp only [List.cons_append, mergeLoop, hb, hci]
      · simp only [List.cons_append, mergeLoop, hb, hci, hd, Option.getD_some]
        rw [FS.remove_other _ _ _ (by simp), FS.write_same]
      · simp only [List.length_append, List.length_take, List.length_cons, Nat.succ_mul]
        omega
    | none =>
      obtain ⟨msg, b1, h1, h2, h3⟩ := mergeLoop_missing env L k post pre
        ((fs.write Path.dest (out ++ b)).remove (Path.part i)) (out ++ b) hnd.2
        (by rw [FS.remove_other _ _ _ (by simp), FS.write_same])
        (by rw [FS.remove_other _ _ _ (by simpa using hik), FS.write_other _ _ _ _ (by simp)]
            exact hk)
        (fun j hj => by
          have hji : j ≠ i := fun e => hnd.1 (by rw [← e]; exact List.mem_append_left _ hj)
          rw [FS.remove_other _ _ _ (by simpa using hji), FS.write_other _ _ _ _ (by simp)]
          exact hp j (List.mem_cons_of_mem _ hj))
      refine ⟨msg, b1, ?_, ?_, ?_⟩
      · simpa only [List.cons_append, mergeLoop, hb, hci, hd, Option.getD_some] using h1
      · simpa only [List.cons_append, mergeLoop, hb, hci, hd, Option.getD_some] using h2
      · simp only [List.length_append, List.length_cons, Nat.succ_mul] at h3 ⊢
        omega

/-- Unfolding of `DownloadVideo` for a job whose destination cannot be created: the
call returns an error after the chunk tasks have run. -/
theorem DownloadVideo_create_fails (env : Env) (N : Nat) (fs : FS) (status S : Int)
    (header ranges : String) (hN : 1 ≤ N)
    (hhead : env.head = some (status, header, ranges))
    (hstatus : status = 200 ∨ status = 206)
    (hlen : Atoi (goBytes header) = (S, none))
    (hpool : env.poolOk = true) (hcreate : env.destCreateOk = false) :
    DownloadVideo env N fs =
      ⟨Ret.error "os.Create", N, runTasks env S N (List.range N) fs⟩ := by
  have h1 : ¬ (status ≠ 200 ∧ status ≠ 206) := by omega
  have h2 : ¬ ((N : Int) ≤ 0) := by omega
  simp [DownloadVideo, hhead, h1, hlen, h2, hpool, hcreate]

/-- When a part of the list is missing, the merge loop returns an error, whatever the
other parts hold. -/
theorem mergeLoop_missing_error (env : Env) (k : Nat) :
    ∀ (l : List Nat) (fs : FS), k ∈ l → fs (Path.part k) = none →
      ∃ msg, (mergeLoop env l fs).1 = Ret.error msg
  | [], _, hk, _ => by simp at hk
  | j :: rest, fs, hk, hnone => by
    cases hpj : fs (Path.part j) with
    | none => exact ⟨"open: no such file or directory", by simp only [mergeLoop, hpj]⟩
    | some data =>
      cases hcj : env.copyErr j with
      | some n => exact ⟨"copy failed", by simp only [mergeLoop, hpj, hcj]⟩
      | none =>
        have hkj : k ≠ j := by
          intro e
          rw [e, hpj] at hnone
          cases hnone
        have hmem : k ∈ rest := by
          rcases List.mem_cons.mp hk with h | h
          · exact absurd h hkj
          · exact h
        simp only [mergeLoop, hpj, hcj]
        apply mergeLoop_missing_error env k rest _ hmem
        rw [FS.remove_other _ _ _ (by simpa using hkj), FS.write_other _ _ _ _ (by simp)]
        exact hnone

/-- C4 (counterexample): in the run `noRangeFailedEnv` (content length 8, four parts, no
part file at the start) the request of part 1 fails and the other three tasks finish,
`DownloadVideo` returns an error, and the destination file it leaves holds 8 bytes, the
expected total, because part 0 alone carries the whole content.  And in the run
`failedRequestNoDestEnv`, started with a destination of 8 bytes already there, the
request of part 2 fails, the other three tasks finish with the bytes of their ranges,
`DownloadVideo` returns an error and the destination still holds 8 bytes. -/
theorem failed_request_full_size :
    Atoi (goBytes "8") = (8, none) ∧
    (List.range 4).map (fun i : Nat =>
        (chunkTask noRangeFailedEnv (chunkFrom 8 4 i) (chunkTo 8 4 i) i emptyFS).2) =
      [TaskEnd.finished, TaskEnd.doError, TaskEnd.finished, TaskEnd.finished] ∧
    (DownloadVideo noRangeFailedEnv 4 emptyFS).ret =
      Ret.error "open: no such file or directory" ∧
    (DownloadVideo noRangeFailedEnv 4 emptyFS).fs Path.dest = some eightBytes ∧
    eightBytes.length = 8 ∧
    (List.range 4).map (fun i : Nat =>
        (chunkTask failedRequestNoDestEnv (chunkFrom 8 4 i) (chunkTo 8 4 i) i oldDestFS).2) =
      [TaskEnd.finished, TaskEnd.finished, TaskEnd.doError, TaskEnd.finished] ∧
    (DownloadVideo failedRequestNoDestEnv 4 oldDestFS).ret = Ret.error "os.Create" ∧
    (DownloadVideo failedRequestNoDestEnv 4 oldDestFS).fs Path.dest = some eightBytes := by
  decide

/-- C4 (amended): a job of 4 parts over a resource of size `S > 0`, started with no part
file present, whose chunk tasks were launched and in which the request
(`httpClient.Do`) of one task `k` fails: `DownloadVideo` returns a non-nil error,
whatever the other tasks do.  When the other three tasks finish having written as many
bytes as their ranges hold and the destination can be created, the destination file
holds fewer than `S` bytes; when the destination cannot be created, that path is left as
it was before the call. -/
theorem failed_request_fails_job (env : Env) (fs : FS) (status S : Int)
    (header ranges : String) (k : Nat)
    (hhead : env.head = some (status, header, ranges))
    (hstatus : status = 200 ∨ status = 206)
    (hlen : Atoi (goBytes header) = (S, none))
    (hS : 0 < S)
    (hfresh : ∀ i, fs (Path.part i) = none)
    (hpool : env.poolOk = true)
    (hk : k < 4)
    (hfail : (chunkTask env (chunkFrom S 4 k) (chunkTo S 4 k) k fs).2 = TaskEnd.doError) :
    (∃ msg, (DownloadVideo env 4 fs).ret = Ret.error msg) ∧
    ((∀ i, i < 4 → i ≠ k →
        (chunkTask env (chunkFrom S 4 i) (chunkTo S 4 i) i fs).2 = TaskEnd.finished ∧
        ∃ b, (chunkTask env (chunkFrom S 4 i) (chunkTo S 4 i) i fs).1 (Path.part i) = some b ∧
          (b.length : Int) = chunkTo S 4 i + 1 - chunkFrom S 4 i) →
      env.destCreateOk = true →
      ∃ b, (DownloadVideo env 4 fs).fs Path.dest = some b ∧ (b.length : Int) < S) ∧
    (env.destCreateOk = false → (DownloadVideo env 4 fs).fs Path.dest = fs Path.dest) := by
  have h4 : (4 : Int) = ((4 : Nat) : Int) := rfl
  have hcs0 := chunkSize_nonneg S 4 (by omega) (by omega)
  have hcs4 := chunkSize_mul_le S 4 (by omega) (by omega)
  cases hcreate : env.destCreateOk with
  | false =>
    rw [h4, DownloadVideo_create_fails env 4 fs status S header ranges (by omega) hhead hstatus
      hlen hpool hcreate]
    exact ⟨⟨_, rfl⟩, fun _ h => Bool.noConfusion h, fun _ => runTasks_dest env S _ _ fs⟩
  | true =>
    rw [h4, DownloadVideo_merge env 4 fs status S header ranges (by omega) hhead hstatus
      hlen hpool hcreate]
    simp only [← h4]
    -- the part files after the join
    have hpartk : ((runTasks env S 4 (List.range 4) fs).write Path.dest []) (Path.part k) =
        none := by
      rw [FS.write_other _ _ _ _ (by simp),
        runTasks_part env _ _ k _ fs (List.nodup_range 4) (List.mem_range.mpr hk),
        chunkTask_doError env _ _ k fs hfail]
      exact hfresh k
    refine ⟨mergeLoop_missing_error env k _ _ (List.mem_range.mpr hk) hpartk, ?_,
      fun h => by cases h⟩
    intro hok _
    have hparts : ∀ i, i < k →
        ∃ b, ((runTasks env S 4 (List.range 4) fs).write Path.dest []) (Path.part i) = some b ∧
          b.length ≤ (chunkSize S 4).toNat := by
      intro i hi
      obtain ⟨_, b, hb, hlenb⟩ := hok i (by omega) (by omega)
      refine ⟨b, ?_, ?_⟩
      · rw [FS.write_other _ _ _ _ (by simp),
          runTasks_part env _ _ i _ fs (List.nodup_range 4) (List.mem_range.mpr (by omega))]
        exact hb
      · have hne : (i : Int) ≠ 4 - 1 := by omega
        rw [chunkTo_of_ne S 4 i hne] at hlenb
        omega
    have key : ∀ (pre post : List Nat), List.range 4 = pre ++ k :: post →
        (∀ i ∈ pre, i < k) → pre.length ≤ 3 →
        ∃ b, (mergeLoop env (List.range 4)
            ((runTasks env S 4 (List.range 4) fs).write Path.dest [])).2 Path.dest = some b ∧
          (b.length : Int) < S := by
      intro pre post hsplit hpre hlen3
      have hnd : (pre ++ k :: post).Nodup := hsplit ▸ List.nodup_range 4
      obtain ⟨msg, b, h1, h2, h3⟩ := mergeLoop_missing env (chunkSize S 4).toNat k post pre
        ((runTasks env S 4 (List.range 4) fs).write Path.dest []) [] hnd
        (FS.write_same _ _ _) hpartk (fun i hi => hparts i (hpre i hi))
      rw [← hsplit] at h2
      refine ⟨b, h2, ?_⟩
      have h5 : pre.length * (chunkSize S 4).toNat ≤ 3 * (chunkSize S 4).toNat :=
        Nat.mul_le_mul_right _ hlen3
      simp only [List.length_nil, Nat.zero_add] at h3
      omega
    interval_cases k
    · exact key [] [1, 2, 3] rfl (by simp) (by simp)
    · exact key [0] [2, 3] rfl (by simp) (by simp)
    · exact key [0, 1] [3] rfl (by simp) (by simp)
    · exact key [0, 1, 2] [] rfl (by simp) (by simp)

/-- Witness of `failed_request_fails_job`: the run `failedRequestEnv`, where the request
of part 2 fails and the other three tasks write the bytes of their ranges. -/
theorem failed_request_fails_job_witness :
    (∃ msg, (DownloadVideo failedRequestEnv 4 emptyFS).ret = Ret.error msg) ∧
    (∃ b, (DownloadVideo failedRequestEnv 4 emptyFS).fs Path.dest = some b ∧
      (b.length : Int) < 8) :=
  ⟨(failed_request_fails_job failedRequestEnv emptyFS 200 8 "8" "bytes" 2 rfl (by decide)
      (by decide) (by decide) (fun _ => rfl) rfl (by decide) (by decide)).1,
    (failed_request_fails_job failedRequestEnv emptyFS 200 8 "8" "bytes" 2 rfl (by decide)
      (by decide) (by decide) (fun _ => rfl) rfl (by decide) (by decide)).2.1
      (by intro i hi hne; interval_cases i <;>
        first | exact absurd rfl hne | exact ⟨by decide, _, rfl, by decide⟩)
      rfl⟩

/-! ## The address policy -/

set_option maxRecDepth 100000 in
/-- On a byte, the mask `0xf0` gives 16 exactly on 16..31. -/
theorem land_f0_eq_16 : ∀ b, b < 256 → (b &&& 0xf0 = 16 ↔ 16 ≤ b ∧ b ≤ 31) := by
  decide

set_option maxRecDepth 100000 in
/-- On a byte, the mask `0xf0` gives `0xe0` exactly on 224..239. -/
theorem land_f0_eq_e0 : ∀ a, a < 256 → (a &&& 0xf0 = 0xe0 ↔ 224 ≤ a ∧ a ≤ 239) := by
  decide

/-- The 4-byte form of an IPv4-mapped address. -/
theorem To4_mapped (a b c d : Nat) : IP.To4 (v4InV6Prefix ++ [a, b, c, d]) = [a, b, c, d] := by
  simp [IP.To4, v4InV6Prefix]

/-- An IPv4-mapped address is multicast when its first octet is in `224/4`. -/
theorem IsMulticast_mapped (a b c d : Nat) :
    IP.IsMulticast (v4InV6Prefix ++ [a, b, c, d]) = decide (a &&& 0xf0 = 0xe0) := by
  simp [IP.IsMulticast, To4_mapped]

/-- An IPv4-mapped address is loopback when its first octet is 127. -/
theorem IsLoopback_mapped (a b c d : Nat) :
    IP.IsLoopback (v4InV6Prefix ++ [a, b, c, d]) = decide (a = 127) := by
  simp [IP.IsLoopback, To4_mapped]

/-- An IPv4-mapped address is private when it lies in `10/8`, `172.16/12` or
`192.168/16`. -/
theorem IsPrivate_mapped (a b c d : Nat) :
    IP.IsPrivate (v4InV6Prefix ++ [a, b, c, d]) =
      decide (a = 10 ∨ (a = 172 ∧ b &&& 0xf0 = 16) ∨ (a = 192 ∧ b = 168)) := by
  simp [IP.IsPrivate, To4_mapped]

/-- An IPv4-mapped address is unspecified when it is `0.0.0.0`. -/
theorem IsUnspecified_mapped (a b c d : Nat) :
    IP.IsUnspecified (v4InV6Prefix ++ [a, b, c, d]) =
      decide (a = 0 ∧ b = 0 ∧ c = 0 ∧ d = 0) := by
  simp [IP.IsUnspecified, IP.Equal, v4InV6Prefix, List.replicate]

/-- The policy on an IPv4 address `a.b.c.d` in the 16-byte form `net.ParseIP` returns. -/
theorem disallowed_mapped (a b c d : Nat) (ha : a < 256) (hb : b < 256) :
    (IP.IsMulticast (v4InV6Prefix ++ [a, b, c, d]) ||
      IP.IsUnspecified (v4InV6Prefix ++ [a, b, c, d]) ||
      IP.IsLoopback (v4InV6Prefix ++ [a, b, c, d]) ||
      IP.IsPrivate (v4InV6Prefix ++ [a, b, c, d])) = true ↔
    ((224 ≤ a ∧ a ≤ 239) ∨ (a = 0 ∧ b = 0 ∧ c = 0 ∧ d = 0) ∨ a = 127 ∨
      a = 10 ∨ (a = 172 ∧ 16 ≤ b ∧ b ≤ 31) ∨ (a = 192 ∧ b = 168)) := by
  have hm := land_f0_eq_e0 a ha
  have hp := land_f0_eq_16 b hb
  rw [IsMulticast_mapped, IsUnspecified_mapped, IsLoopback_mapped, IsPrivate_mapped]
  simp only [Bool.or_eq_true, decide_eq_true_eq, hm, hp, or_assoc]

/-- C5 (counterexample): `169.254.1.1` is a link-local address, and `IsDisallowedIP`
returns false for it. -/
theorem link_local_not_rejected :
    IP.IsLinkLocalUnicast (ParseIP "169.254.1.1") = true ∧
    IsDisallowedIP "169.254.1.1" = false := by
  decide

/-- C5 (amended): `IsDisallowedIP` rejects exactly the addresses that are multicast,
unspecified, loopback or private; for an IPv4 address `a.b.c.d` these are `224/4`,
`0.0.0.0`, `127/8`, `10/8`, `172.16/12` and `192.168/16`.  It returns true for
`127.0.0.1`, `10.0.0.5` and `224.0.0.1` and false for `8.8.8.8`. -/
theorem IsDisallowedIP_policy :
    (∀ hostIP : String, IsDisallowedIP hostIP = true ↔
      (IP.IsMulticast (ParseIP hostIP) = true ∨ IP.IsUnspecified (ParseIP hostIP) = true ∨
        IP.IsLoopback (ParseIP hostIP) = true ∨ IP.IsPrivate (ParseIP hostIP) = true)) ∧
    (∀ (hostIP : String) (a b c d : Nat), ParseIP hostIP = v4InV6Prefix ++ [a, b, c, d] →
      a < 256 → b < 256 →
      (IsDisallowedIP hostIP = true ↔
        ((224 ≤ a ∧ a ≤ 239) ∨ (a = 0 ∧ b = 0 ∧ c = 0 ∧ d = 0) ∨ a = 127 ∨
          a = 10 ∨ (a = 172 ∧ 16 ≤ b ∧ b ≤ 31) ∨ (a = 192 ∧ b = 168)))) ∧
    IsDisallowedIP "127.0.0.1" = true ∧ IsDisallowedIP "10.0.0.5" = true ∧
    IsDisallowedIP "224.0.0.1" = true ∧ IsDisallowedIP "8.8.8.8" = false := by
  refine ⟨?_, ?_, by decide, by decide, by decide, by decide⟩
  · intro hostIP
    simp only [IsDisallowedIP, Bool.or_eq_true, or_assoc]
  · intro hostIP a b c d hparse ha hb
    simp only [IsDisallowedIP, hparse]
    exact disallowed_mapped a b c d ha hb

/-- Witness of `IsDisallowedIP_policy`: the address `172.20.1.2` parses to its 16-byte
form and is rejected as private. -/
theorem IsDisallowedIP_policy_witness :
    ParseIP "172.20.1.2" = v4InV6Prefix ++ [172, 20, 1, 2] ∧
    (IsDisallowedIP "172.20.1.2" = true ↔
      ((224 ≤ 172 ∧ 172 ≤ 239) ∨
        ((172 : Nat) = 0 ∧ (20 : Nat) = 0 ∧ (1 : Nat) = 0 ∧ (2 : Nat) = 0) ∨
        (172 : Nat) = 127 ∨ (172 : Nat) = 10 ∨ ((172 : Nat) = 172 ∧ 16 ≤ 20 ∧ 20 ≤ 31) ∨
        ((172 : Nat) = 192 ∧ (20 : Nat) = 168))) :=
  ⟨by decide, IsDisallowedIP_policy.2.1 "172.20.1.2" 172 20 1 2 (by decide) (by decide)
    (by decide)⟩

/-! ## Quality selection -/

/-- The empty label has value 0: the initial `highestQuality`. -/
theorem qualityValue_empty : qualityValue "" = 0 := by
  decide

/-- The comparison is the order of the values. -/
theorem isHigherQuality_iff (q1 q2 : String) :
    isHigherQuality q1 q2 = true ↔ qualityValue q1 > qualityValue q2 := by
  simp [isHigherQuality]

/-- Invariant of the selection loop started in state `st`: either no candidate beats the
label of `st` and the state is unchanged, or the final state is the first candidate of
largest value, and that value beats the label of `st`. -/
theorem foldl_selectStep :
    ∀ (videos : List VideoData) (st : String × String),
      ((∀ u ∈ videos, qualityValue u.Label ≤ qualityValue st.1) ∧
        videos.foldl selectStep st = st) ∨
      (∃ pre v post, videos = pre ++ v :: post ∧
        (∀ u ∈ pre, qualityValue u.Label < qualityValue v.Label) ∧
        (∀ u ∈ post, qualityValue u.Label ≤ qualityValue v.Label) ∧
        qualityValue st.1 < qualityValue v.Label ∧
        videos.foldl selectStep st = (v.Label, v.Src))
  | [], st => Or.inl ⟨by simp, rfl⟩
  | x :: xs, st => by
    simp only [List.foldl_cons]
    by_cases hx : qualityValue x.Label > qualityValue st.1
    · have hstep : selectStep st x = (x.Label, x.Src) := by
        simp [selectStep, isHigherQuality_iff, hx]
      rw [hstep]
      rcases foldl_selectStep xs (x.Label, x.Src) with ⟨hle, hfold⟩ | ⟨pre, v, post, hsplit, hpre, hpost, hlt, hfold⟩
      · exact Or.inr ⟨[], x, xs, rfl, by simp, hle, hx, hfold⟩
      · refine Or.inr ⟨x :: pre, v, post, by rw [hsplit]; rfl, ?_, hpost, ?_, hfold⟩
        · intro u hu
          rcases List.mem_cons.mp hu with rfl | hu
          · exact hlt
          · exact hpre u hu
        · exact lt_trans hx hlt
    · have hstep : selectStep st x = st := by
        simp [selectStep, isHigherQuality_iff, hx]
      rw [hstep]
      rcases foldl_selectStep xs st with ⟨hle, hfold⟩ | ⟨pre, v, post, hsplit, hpre, hpost, hlt, hfold⟩
      · refine Or.inl ⟨?_, hfold⟩
        intro u hu
        rcases List.mem_cons.mp hu with rfl | hu
        · exact not_lt.mp hx
        · exact hle u hu
      · refine Or.inr ⟨x :: pre, v, post, by rw [hsplit]; rfl, ?_, hpost, hlt, hfold⟩
        intro u hu
        rcases List.mem_cons.mp hu with rfl | hu
        · exact lt_of_le_of_lt (not_lt.mp hx) hlt
        · exact hpre u hu

/-! ## `strconv.Atoi` against decimal notation -/

/-- Reading more digits does not make the number smaller. -/
theorem digitsValue_ge : ∀ (ds : List Nat) (acc v : Nat), digitsValue ds acc = some v → acc ≤ v
  | [], acc, v, h => by
    simp only [digitsValue, Option.some.injEq] at h
    omega
  | c :: rest, acc, v, h => by
    simp only [digitsValue] at h
    split at h
    · have := digitsValue_ge rest _ v h
      omega
    · cases h

/-- The fast path of `Atoi` reads the digits of a byte string. -/
theorem atoiFastLoop_eq : ∀ (ds : List Nat) (acc : Nat), (∀ c ∈ ds, c < 256) →
    atoiFastLoop ds (acc : Int) = (digitsValue ds acc).map (fun v => (v : Int))
  | [], acc, _ => by simp [atoiFastLoop, digitsValue]
  | c :: rest, acc, hb => by
    have hc : c < 256 := hb c (List.mem_cons_self _ _)
    have hrest : ∀ x ∈ rest, x < 256 := fun x hx => hb x (List.mem_cons_of_mem _ hx)
    simp only [atoiFastLoop, digitsValue]
    by_cases hd : 48 ≤ c ∧ c ≤ 57
    · have h1 : ¬ ((c + 256 - 48) % 256 > 9) := by omega
      have h2 : (c + 256 - 48) % 256 = c - 48 := by omega
      rw [if_neg h1, if_pos hd, h2, ← atoiFastLoop_eq rest _ hrest]
      push_cast
      rfl
    · have h1 : (c + 256 - 48) % 256 > 9 := by omega
      rw [if_pos h1, if_neg hd]
      rfl

/-- The loop of `ParseUint` on a string of digits: the number, or `maxVal` with a range
error when the number does not fit 64 bits. -/
theorem parseUintLoop_digits : ∀ (ds : List Nat) (n v : Nat), n < 2 ^ 64 →
    digitsValue ds n = some v →
    parseUintLoop ds n =
      if v < 2 ^ 64 then (v, none) else (maxUint64, some NumErr.ErrRange)
  | [], n, v, hn, h => by
    simp only [digitsValue, Option.some.injEq] at h
    subst h
    rw [parseUintLoop, if_pos hn]
  | c :: rest, n, v, hn, h => by
    simp only [digitsValue] at h
    by_cases hd : 48 ≤ c ∧ c ≤ 57
    · rw [if_pos hd] at h
      have hge := digitsValue_ge rest _ v h
      simp only [parseUintLoop, if_pos hd, maxUint64]
      by_cases hcut : n ≥ (2 ^ 64 - 1) / 10 + 1
      · have hv : ¬ v < 2 ^ 64 := by omega
        rw [if_pos hcut, if_neg hv]
      · rw [if_neg hcut]
        have h10 : n * 10 % 2 ^ 64 = n * 10 := Nat.mod_eq_of_lt (by omega)
        rw [h10]
        by_cases hov : n * 10 + (c - 48) < 2 ^ 64
        · have h1 : (n * 10 + (c - 48)) % 2 ^ 64 = n * 10 + (c - 48) := Nat.mod_eq_of_lt hov
          rw [h1]
          have h2 : ¬ (n * 10 + (c - 48) < n * 10 ∨ n * 10 + (c - 48) > 2 ^ 64 - 1) := by omega
          rw [if_neg h2]
          exact parseUintLoop_digits rest _ v hov h
        · have h1 : (n * 10 + (c - 48)) % 2 ^ 64 < n * 10 := by omega
          have hv : ¬ v < 2 ^ 64 := by omega
          rw [if_pos (Or.inl h1), if_neg hv]
    · rw [if_neg hd] at h
      cases h

/-- The loop of `ParseUint` on a string that is not all digits reports an error. -/
theorem parseUintLoop_not_digits : ∀ (ds : List Nat) (n : Nat),
    digitsValue ds n = none →
    parseUintLoop ds n = (0, some NumErr.ErrSyntax) ∨
      parseUintLoop ds n = (maxUint64, some NumErr.ErrRange)
  | [], n, h => by simp [digitsValue] at h
  | c :: rest, n, h => by
    simp only [digitsValue] at h
    simp only [parseUintLoop]
    by_cases hd : 48 ≤ c ∧ c ≤ 57
    · rw [if_pos hd] at h
      rw [if_pos hd]
      split
      · exact Or.inr rfl
      · rename_i hcut
        simp only [maxUint64] at hcut
        have h10 : n * 10 % 2 ^ 64 = n * 10 := Nat.mod_eq_of_lt (by omega)
        rw [h10]
        split
        · exact Or.inr rfl
        · rename_i hov
          simp only [maxUint64] at hov
          have h1 : (n * 10 + (c - 48)) % 2 ^ 64 = n * 10 + (c - 48) := by omega
          rw [h1]
          exact parseUintLoop_not_digits rest _ h
    · rw [if_neg hd]
      exact Or.inl rfl

/-- The result of `ParseUint` on a non-empty string of digits. -/
theorem ParseUint_digits (ds : List Nat) (v : Nat) (hne : ds ≠ [])
    (h : digitsValue ds 0 = some v) :
    ParseUint ds = if v < 2 ^ 64 then (v, none) else (maxUint64, some NumErr.ErrRange) := by
  rw [ParseUint, if_neg hne]
  exact parseUintLoop_digits ds 0 v (by omega) h

/-- The result of `ParseUint` on a string that is empty or not all digits. -/
theorem ParseUint_not_digits (ds : List Nat) (h : ds = [] ∨ digitsValue ds 0 = none) :
    ParseUint ds = (0, some NumErr.ErrSyntax) ∨
      ParseUint ds = (maxUint64, some NumErr.ErrRange) := by
  unfold ParseUint
  split
  · exact Or.inl rfl
  · rename_i hne
    rcases h with h | h
    · exact absurd h hne
    · exact parseUintLoop_not_digits ds 0 h

/-- Unfolding of `decimalValue` on a non-empty string. -/
theorem decimalValue_cons (c : Nat) (rest : List Nat) :
    decimalValue (c :: rest) =
      if (if c = 43 ∨ c = 45 then rest else c :: rest) = [] then none
      else (digitsValue (if c = 43 ∨ c = 45 then rest else c :: rest) 0).map
        fun (v : Nat) => if c = 45 then -(v : Int) else (v : Int) :=
  rfl

/-- Unfolding of `ParseInt` on a non-empty string. -/
theorem ParseInt_cons (c : Nat) (rest : List Nat) :
    ParseInt (c :: rest) =
      parseIntTail (decide (c = 45)) (ParseUint (if c = 43 ∨ c = 45 then rest else c :: rest)) :=
  rfl

/-- The range check of `ParseInt` on a number `v` that `ParseUint` read without error. -/
theorem parseIntTail_ok (neg : Bool) (v : Nat) :
    parseIntTail neg (v, none) =
      if neg = false ∧ v ≥ 2 ^ 63 then ((2 : Int) ^ 63 - 1, some NumErr.ErrRange)
      else if neg = true ∧ v > 2 ^ 63 then (-(2 : Int) ^ 63, some NumErr.ErrRange)
      else (if neg then -(v : Int) else (v : Int), none) := by
  simp only [parseIntTail]
  split
  · rfl
  · split
    · rfl
    · rename_i h1 h2
      cases neg
      · have : ¬ v ≥ 2 ^ 63 := by simpa using h1
        simp only [if_neg this]
        rfl
      · have : ¬ v > 2 ^ 63 := by simpa using h2
        by_cases hv : v ≥ 2 ^ 63
        · have hv2 : v = 2 ^ 63 := by omega
          subst hv2
          simp
        · simp only [if_neg hv, if_true]
          have h3 : ¬ ((v : Int) = -(2 : Int) ^ 63) := by omega
          rw [if_neg h3]

/-- The range check of `ParseInt` after `ParseUint` reported a range error. -/
theorem parseIntTail_range (neg : Bool) :
    parseIntTail neg (maxUint64, some NumErr.ErrRange) =
      if neg then (-(2 : Int) ^ 63, some NumErr.ErrRange)
      else ((2 : Int) ^ 63 - 1, some NumErr.ErrRange) := by
  cases neg <;> simp [parseIntTail, maxUint64]

/-- Result of `ParseInt` on a string that denotes `n`: `n` itself when it fits 64 bits, else the
bound of its sign with a range error. -/
theorem ParseInt_decimal (s : List Nat) (n : Int) (h : decimalValue s = some n) :
    ParseInt s =
      if n ≥ (2 : Int) ^ 63 then ((2 : Int) ^ 63 - 1, some NumErr.ErrRange)
      else if n < -(2 : Int) ^ 63 then (-(2 : Int) ^ 63, some NumErr.ErrRange)
      else (n, none) := by
  cases s with
  | nil => simp [decimalValue] at h
  | cons c rest =>
    rw [decimalValue_cons] at h
    rw [ParseInt_cons]
    generalize (if c = 43 ∨ c = 45 then rest else c :: rest) = ds at h ⊢
    by_cases hne : ds = []
    · rw [if_pos hne] at h; cases h
    · rw [if_neg hne] at h
      cases hv : digitsValue ds 0 with
      | none => rw [hv] at h; cases h
      | some v =>
        rw [hv] at h
        simp only [Option.map_some', Option.some.injEq] at h
        rw [ParseUint_digits ds v hne hv]
        by_cases hv64 : v < 2 ^ 64
        · rw [if_pos hv64, parseIntTail_ok]
          by_cases hc : c = 45
          · simp only [hc, if_true, decide_True] at h ⊢
            subst h
            split_ifs <;> first | rfl | omega | (simp_all <;> omega)
          · simp only [hc, if_false, decide_False] at h ⊢
            subst h
            split_ifs <;> first | rfl | omega | (simp_all <;> omega)
        · rw [if_neg hv64, parseIntTail_range]
          by_cases hc : c = 45
          · simp only [hc, if_true, decide_True] at h ⊢
            subst h
            split_ifs <;> first | rfl | omega
          · simp only [hc, if_false, decide_False] at h ⊢
            subst h
            split_ifs <;> first | rfl | omega | simp_all

/-- Result of `ParseInt` on a string that denotes no number, always an error: a syntax error
with value 0 or a range error with the bound of the sign. -/
theorem ParseInt_not_decimal (s : List Nat) (h : decimalValue s = none) :
    ParseInt s = (0, some NumErr.ErrSyntax) ∨
      ParseInt s = ((2 : Int) ^ 63 - 1, some NumErr.ErrRange) ∨
      ParseInt s = (-(2 : Int) ^ 63, some NumErr.ErrRange) := by
  cases s with
  | nil => exact Or.inl rfl
  | cons c rest =>
    rw [decimalValue_cons] at h
    rw [ParseInt_cons]
    generalize (if c = 43 ∨ c = 45 then rest else c :: rest) = ds at h ⊢
    have hds : ds = [] ∨ digitsValue ds 0 = none := by
      by_cases hne : ds = []
      · exact Or.inl hne
      · rw [if_neg hne] at h
        cases hv : digitsValue ds 0 with
        | none => exact Or.inr rfl
        | some v => rw [hv] at h; cases h
    rcases ParseUint_not_digits ds hds with hu | hu
    · rw [hu]; exact Or.inl rfl
    · rw [hu, parseIntTail_range]
      cases decide (c = 45)
      · exact Or.inr (Or.inl rfl)
      · exact Or.inr (Or.inr rfl)

/-- The bytes of a Go string are below 256. -/
theorem goBytes_lt (s : String) : ∀ c ∈ goBytes s, c < 256 := by
  intro c hc
  simp only [goBytes, List.mem_flatMap, List.mem_map] at hc
  obtain ⟨_, _, b, _, rfl⟩ := hc
  exact b.toNat_lt

/-- Trimming keeps only bytes of the string. -/
theorem mem_trimRightByte (s : List Nat) (b c : Nat) (h : c ∈ trimRightByte s b) : c ∈ s := by
  simp only [trimRightByte, List.mem_reverse] at h
  exact List.mem_reverse.mp ((List.dropWhile_sublist _).subset h)

/-- Unfolding of the fast path of `Atoi` on a string of 1 to 18 bytes. -/
theorem Atoi_fast (c : Nat) (rest : List Nat) (hlen : (c :: rest).length < 19)
    (hb : ∀ x ∈ c :: rest, x < 256) :
    Atoi (c :: rest) =
      if (if c = 45 ∨ c = 43 then rest else c :: rest) = [] then (0, some NumErr.ErrSyntax)
      else
        match digitsValue (if c = 45 ∨ c = 43 then rest else c :: rest) 0 with
        | none => (0, some NumErr.ErrSyntax)
        | some v => (if c = 45 then -(v : Int) else (v : Int), none) := by
  have h0 : 0 < (c :: rest).length ∧ (c :: rest).length < 19 := ⟨by simp, hlen⟩
  have hds : ∀ x ∈ (if c = 45 ∨ c = 43 then rest else c :: rest), x < 256 := by
    intro x hx
    split at hx
    · exact hb x (List.mem_cons_of_mem _ hx)
    · exact hb x hx
  have hloop := atoiFastLoop_eq _ 0 hds
  simp only [Nat.cast_zero] at hloop
  simp only [Atoi, if_pos h0, hloop]
  generalize (if c = 45 ∨ c = 43 then rest else c :: rest) = ds
  cases ds with
  | nil => simp
  | cons d ds =>
    simp only [List.length_cons, Nat.lt_one_iff, Nat.add_one_ne_zero, if_false,
      List.cons_ne_nil]
    cases digitsValue (d :: ds) 0 <;> rfl

/-- The digits after the sign, in the form `decimalValue` writes them. -/
theorem sign_digits_comm (c : Nat) (rest : List Nat) :
    (if c = 45 ∨ c = 43 then rest else c :: rest) =
      (if c = 43 ∨ c = 45 then rest else c :: rest) := by
  simp only [or_comm]

/-- The slow path of `Atoi`. -/
theorem Atoi_slow (s : List Nat) (h : ¬ (0 < s.length ∧ s.length < 19)) :
    Atoi s = ParseInt s := by
  unfold Atoi
  rw [if_neg h]

/-- Result of `Atoi` on a byte string that denotes a number fitting 64 bits: that number
and no error. -/
theorem Atoi_decimal (s : List Nat) (n : Int) (hb : ∀ x ∈ s, x < 256)
    (h : decimalValue s = some n) (hlo : -(2 : Int) ^ 63 ≤ n) (hhi : n < (2 : Int) ^ 63) :
    Atoi s = (n, none) := by
  by_cases hfast : 0 < s.length ∧ s.length < 19
  · cases s with
    | nil => simp [decimalValue] at h
    | cons c rest =>
      rw [Atoi_fast c rest hfast.2 hb, sign_digits_comm]
      rw [decimalValue_cons] at h
      generalize (if c = 43 ∨ c = 45 then rest else c :: rest) = ds at h ⊢
      by_cases hne : ds = []
      · rw [if_pos hne] at h; cases h
      · rw [if_neg hne] at h ⊢
        cases hv : digitsValue ds 0 with
        | none => rw [hv] at h; cases h
        | some v =>
          rw [hv] at h
          simp only [Option.map_some', Option.some.injEq] at h
          simp only [h]
  · rw [Atoi_slow s hfast, ParseInt_decimal s n h]
    have h1 : ¬ (n ≥ (2 : Int) ^ 63) := by omega
    have h2 : ¬ (n < -(2 : Int) ^ 63) := by omega
    rw [if_neg h1, if_neg h2]

/-- The four shapes of a result of `Atoi` on a byte string: the number the string
denotes, without error; 0 with a syntax error; or the largest or smallest `int64` with a
range error. -/
theorem Atoi_shape (s : List Nat) (hb : ∀ x ∈ s, x < 256) :
    (∃ n, decimalValue s = some n ∧ Atoi s = (n, none)) ∨
      Atoi s = (0, some NumErr.ErrSyntax) ∨
      Atoi s = ((2 : Int) ^ 63 - 1, some NumErr.ErrRange) ∨
      Atoi s = (-(2 : Int) ^ 63, some NumErr.ErrRange) := by
  by_cases hfast : 0 < s.length ∧ s.length < 19
  · cases s with
    | nil => simp at hfast
    | cons c rest =>
      rw [Atoi_fast c rest hfast.2 hb, sign_digits_comm, decimalValue_cons]
      generalize (if c = 43 ∨ c = 45 then rest else c :: rest) = ds
      by_cases hne : ds = []
      · simp only [if_pos hne]
        exact Or.inr (Or.inl trivial)
      · simp only [if_neg hne]
        cases hv : digitsValue ds 0 with
        | none => exact Or.inr (Or.inl rfl)
        | some v => exact Or.inl ⟨_, rfl, rfl⟩
  · rw [Atoi_slow s hfast]
    cases hd : decimalValue s with
    | none =>
      rcases ParseInt_not_decimal s hd with h | h | h
      · exact Or.inr (Or.inl h)
      · exact Or.inr (Or.inr (Or.inl h))
      · exact Or.inr (Or.inr (Or.inr h))
    | some n =>
      rw [ParseInt_decimal s n hd]
      split
      · exact Or.inr (Or.inr (Or.inl rfl))
      · split
        · exact Or.inr (Or.inr (Or.inr rfl))
        · exact Or.inl ⟨n, rfl, rfl⟩

/-! ## The quality comparison -/

/-- The bytes `Atoi` is given for a label are below 256. -/
theorem label_bytes_lt (q : String) : ∀ x ∈ trimRightByte (goBytes q) 112, x < 256 :=
  fun x hx => goBytes_lt q x (mem_trimRightByte _ _ _ hx)

/-- C7 (counterexample): on the label `99999999999999999999p` the integer parse reports
an error (out of range), so the specification gives it the value 0, which is not greater
than the value of `720p`; yet `isHigherQuality` puts it above `720p`, and
`selectHighestQualityVideo` chooses it over `720p`. -/
theorem range_error_label_wins :
    (Atoi (trimRightByte (goBytes "99999999999999999999p") 112)).2 =
      some NumErr.ErrRange ∧
    specQualityValue "99999999999999999999p" = 0 ∧
    ¬ (specQualityValue "99999999999999999999p" > specQualityValue "720p") ∧
    isHigherQuality "99999999999999999999p" "720p" = true ∧
    selectHighestQualityVideo [⟨"A", "720p"⟩, ⟨"B", "99999999999999999999p"⟩] = "B" := by
  decide

/-- C7 (amended): `isHigherQuality q1 q2` is true exactly when the value of `q1` is
greater than the value of `q2`, where the value of a label is what `Atoi` returns for
the label without its trailing `p`s: the integer the label denotes when that integer fits
64 bits (and whenever no error is reported), 0 when a syntax error is reported, and the
largest or smallest 64-bit integer when a range error is reported.  Hence
`isHigherQuality "1080p" "720p"` is true, `isHigherQuality "abc" "720p"` is false, and
when some label has a positive value the label `selectHighestQualityVideo` chooses has a
positive value and is not one with a syntax error. -/
theorem isHigherQuality_value :
    (∀ q1 q2 : String, isHigherQuality q1 q2 = true ↔ qualityValue q1 > qualityValue q2) ∧
    (∀ (q : String) (n : Int), decimalValue (trimRightByte (goBytes q) 112) = some n →
      -(2 : Int) ^ 63 ≤ n → n < (2 : Int) ^ 63 → qualityValue q = n) ∧
    (∀ q : String, (Atoi (trimRightByte (goBytes q) 112)).2 = none →
      decimalValue (trimRightByte (goBytes q) 112) = some (qualityValue q)) ∧
    (∀ q : String, (Atoi (trimRightByte (goBytes q) 112)).2 = some NumErr.ErrSyntax →
      qualityValue q = 0) ∧
    (∀ q : String, (Atoi (trimRightByte (goBytes q) 112)).2 = some NumErr.ErrRange →
      qualityValue q = (2 : Int) ^ 63 - 1 ∨ qualityValue q = -(2 : Int) ^ 63) ∧
    isHigherQuality "1080p" "720p" = true ∧ isHigherQuality "abc" "720p" = false ∧
    (∀ videos : List VideoData, (∃ u ∈ videos, 0 < qualityValue u.Label) →
      ∃ pre v post, videos = pre ++ v :: post ∧
        selectHighestQualityVideo videos = v.Src ∧ 0 < qualityValue v.Label ∧
        (Atoi (trimRightByte (goBytes v.Label) 112)).2 ≠ some NumErr.ErrSyntax) := by
  have hsyn : ∀ q : String,
      (Atoi (trimRightByte (goBytes q) 112)).2 = some NumErr.ErrSyntax → qualityValue q = 0 := by
    intro q h
    unfold qualityValue
    rcases Atoi_shape _ (label_bytes_lt q) with ⟨n, _, h1⟩ | h1 | h1 | h1 <;>
      rw [h1] at h ⊢ <;> first | rfl | cases h
  refine ⟨isHigherQuality_iff, ?_, ?_, hsyn, ?_, by decide, by decide, ?_⟩
  · intro q n h hlo hhi
    unfold qualityValue
    rw [Atoi_decimal _ n (label_bytes_lt q) h hlo hhi]
  · intro q h
    unfold qualityValue
    rcases Atoi_shape _ (label_bytes_lt q) with ⟨n, hd, h1⟩ | h1 | h1 | h1
    · rw [h1, hd]
    · rw [h1] at h; cases h
    · rw [h1] at h; cases h
    · rw [h1] at h; cases h
  · intro q h
    unfold qualityValue
    rcases Atoi_shape _ (label_bytes_lt q) with ⟨n, _, h1⟩ | h1 | h1 | h1
    · rw [h1] at h; cases h
    · rw [h1] at h; cases h
    · exact Or.inl (by rw [h1])
    · exact Or.inr (by rw [h1])
  · rintro videos ⟨u, hu, hpos⟩
    rcases foldl_selectStep videos ("", "") with ⟨hle, _⟩ | ⟨pre, v, post, hsplit, _, _, hlt, hfold⟩
    · have := hle u hu
      rw [qualityValue_empty] at this
      omega
    · have hv : 0 < qualityValue v.Label := by
        have h0 : qualityValue ("", "").1 = 0 := qualityValue_empty
        omega
      refine ⟨pre, v, post, hsplit, by simp [selectHighestQualityVideo, hfold], hv, ?_⟩
      intro hs
      have := hsyn v.Label hs
      omega

/-- Witness of `isHigherQuality_value`: the label `1080p` denotes 1080. -/
theorem isHigherQuality_value_witness :
    decimalValue (trimRightByte (goBytes "1080p") 112) = some 1080 ∧
    qualityValue "1080p" = 1080 :=
  ⟨by decide, isHigherQuality_value.2.1 "1080p" 1080 (by decide) (by decide) (by decide)⟩

/-! ## The playback controller -/

/-- C8: for an episode list (non-empty, as it has a last index) and a controller at the
last index, the command `n` changes nothing: the only effect is the notice, no URL is
resolved, no player is started, and the command loop goes on reading with the same
index; likewise the command `p` at index 0. -/
theorem next_at_last_is_noop (getVideoURL : String → Option String)
    (episodes : List Episode) (currentEpisodeIndex : Nat) (rest : List Char)
    (hlast : currentEpisodeIndex + 1 = episodes.length) :
    command getVideoURL episodes currentEpisodeIndex 'n' =
      ([Effect.print "Already at the last episode."], Next.loop currentEpisodeIndex) ∧
    bufferedCommands getVideoURL episodes currentEpisodeIndex ('n' :: rest) =
      (Effect.print "Already at the last episode." ::
          (bufferedCommands getVideoURL episodes currentEpisodeIndex rest).1,
        (bufferedCommands getVideoURL episodes currentEpisodeIndex rest).2) ∧
    command getVideoURL episodes 0 'p' =
      ([Effect.print "Already at the first episode."], Next.loop 0) ∧
    bufferedCommands getVideoURL episodes 0 ('p' :: rest) =
      (Effect.print "Already at the first episode." ::
          (bufferedCommands getVideoURL episodes 0 rest).1,
        (bufferedCommands getVideoURL episodes 0 rest).2) := by
  have hn : command getVideoURL episodes currentEpisodeIndex 'n' =
      ([Effect.print "Already at the last episode."], Next.loop currentEpisodeIndex) := by
    have h : ¬ (currentEpisodeIndex + 1 < episodes.length) := by omega
    simp [command, h]
  have hp : command getVideoURL episodes 0 'p' =
      ([Effect.print "Already at the first episode."], Next.loop 0) := by
    simp [command]
  refine ⟨hn, ?_, hp, ?_⟩
  · simp only [bufferedCommands, hn]
    rfl
  · simp only [bufferedCommands, hp]
    rfl

/-- Witness of `next_at_last_is_noop`: three episodes, the controller at index 2. -/
theorem next_at_last_is_noop_witness :
    command (fun u => some u) [⟨"1", 1, "a"⟩, ⟨"2", 2, "b"⟩, ⟨"3", 3, "c"⟩] 2 'n' =
      ([Effect.print "Already at the last episode."], Next.loop 2) :=
  (next_at_last_is_noop (fun u => some u) [⟨"1", 1, "a"⟩, ⟨"2", 2, "b"⟩, ⟨"3", 3, "c"⟩] 2 []
    rfl).1

/-- With pairwise distinct ordinals the search for the ordinal of episode `j` finds `j`. -/
theorem findEpisodeIndexFrom_nodup :
    ∀ (episodes : List Episode) (k j : Nat) (h : j < episodes.length),
      (episodes.map Episode.Num).Nodup →
      findEpisodeIndexFrom (episodes.get ⟨j, h⟩).Num episodes k = some (k + j)
  | [], _, _, h, _ => by simp at h
  | ep :: rest, k, 0, _, _ => by simp [findEpisodeIndexFrom]
  | ep :: rest, k, j + 1, h, hnd => by
    rw [List.map_cons, List.nodup_cons] at hnd
    have hj : j < rest.length := by simpa using h
    have hne : ep.Num ≠ (rest.get ⟨j, hj⟩).Num := by
      intro e
      apply hnd.1
      rw [e]
      exact List.mem_map_of_mem _ (List.get_mem _ _ _)
    simp only [List.get_cons_succ, findEpisodeIndexFrom, if_neg hne]
    rw [findEpisodeIndexFrom_nodup rest (k + 1) j hj hnd.2]
    congr 1
    omega

/-- On entry `PlayVideo` finds the index of the episode whose ordinal it is given. -/
theorem enterPlayVideo_nodup (videoURL : String) (episodes : List Episode) (j : Nat)
    (h : j < episodes.length) (hnd : (episodes.map Episode.Num).Nodup) :
    enterPlayVideo videoURL episodes (episodes.get ⟨j, h⟩).Num =
      ([Effect.startPlayer videoURL,
        Effect.print "Press 'n' for next episode, 'p' for previous episode, 'q' to quit:"],
        some j) := by
  have := findEpisodeIndexFrom_nodup episodes 0 j h hnd
  simp only [Nat.zero_add] at this
  simp only [enterPlayVideo, findEpisodeIndex, this]

/-- C9: for an episode list with pairwise distinct ordinals and a current index `i`,
when the video URL of the target episode resolves: the command `n` with
`i + 1 < length` makes the controller wait for the player, re-enter `PlayVideo` with the
ordinal of episode `i + 1`, which recomputes the index `i + 1`, and go on reading
standard input at index `i + 1`; the command `p` with `i > 0` does the same for `i - 1`.
For `[{1},{2},{3}]` at index 1, `p` leads to index 0 and `n` to index 2. -/
theorem navigation_reaches_neighbour (getVideoURL : String → Option String)
    (episodes : List Episode) (i : Nat) (rest : List Char) (stdin : List (List Char))
    (hnd : (episodes.map Episode.Num).Nodup) (hi : i < episodes.length) :
    (∀ (h : i + 1 < episodes.length) (url : String),
      getVideoURL (episodes.get ⟨i + 1, h⟩).URL = some url →
      (command getVideoURL episodes i 'n').2 =
        Next.replay url (episodes.get ⟨i + 1, h⟩).Num ∧
      (enterPlayVideo url episodes (episodes.get ⟨i + 1, h⟩).Num).2 = some (i + 1) ∧
      (bufferedCommands getVideoURL episodes i ('n' :: rest)).2 = BufferEnd.more (i + 1) ∧
      commandLoop getVideoURL episodes i (('n' :: rest) :: stdin) =
        ([Effect.print ("Switching to next episode: " ++ (episodes.get ⟨i + 1, h⟩).Number),
          Effect.waitPlayer, Effect.resolveURL (episodes.get ⟨i + 1, h⟩).URL,
          Effect.startPlayer url,
          Effect.print "Press 'n' for next episode, 'p' for previous episode, 'q' to quit:"] ++
            (commandLoop getVideoURL episodes (i + 1) stdin).1,
          (commandLoop getVideoURL episodes (i + 1) stdin).2)) ∧
    (∀ (h : 0 < i) (url : String),
      getVideoURL (episodes.get ⟨i - 1, by omega⟩).URL = some url →
      (command getVideoURL episodes i 'p').2 =
        Next.replay url (episodes.get ⟨i - 1, by omega⟩).Num ∧
      (enterPlayVideo url episodes (episodes.get ⟨i - 1, by omega⟩).Num).2 = some (i - 1) ∧
      (bufferedCommands getVideoURL episodes i ('p' :: rest)).2 = BufferEnd.more (i - 1) ∧
      commandLoop getVideoURL episodes i (('p' :: rest) :: stdin) =
        ([Effect.print
            ("Switching to previous episode: " ++ (episodes.get ⟨i - 1, by omega⟩).Number),
          Effect.waitPlayer, Effect.resolveURL (episodes.get ⟨i - 1, by omega⟩).URL,
          Effect.startPlayer url,
          Effect.print "Press 'n' for next episode, 'p' for previous episode, 'q' to quit:"] ++
            (commandLoop getVideoURL episodes (i - 1) stdin).1,
          (commandLoop getVideoURL episodes (i - 1) stdin).2)) ∧
    (command (fun u => some u) [⟨"1", 1, "a"⟩, ⟨"2", 2, "b"⟩, ⟨"3", 3, "c"⟩] 1 'p').2 =
      Next.replay "a" 1 ∧
    (bufferedCommands (fun u => some u) [⟨"1", 1, "a"⟩, ⟨"2", 2, "b"⟩, ⟨"3", 3, "c"⟩] 1
      ['p', '\n']).2 = BufferEnd.more 0 ∧
    (command (fun u => some u) [⟨"1", 1, "a"⟩, ⟨"2", 2, "b"⟩, ⟨"3", 3, "c"⟩] 1 'n').2 =
      Next.replay "c" 3 ∧
    (bufferedCommands (fun u => some u) [⟨"1", 1, "a"⟩, ⟨"2", 2, "b"⟩, ⟨"3", 3, "c"⟩] 1
      ['n', '\n']).2 = BufferEnd.more 2 := by
  refine ⟨?_, ?_, by decide, by decide, by decide, by decide⟩
  · intro h url hurl
    have hcmd : command getVideoURL episodes i 'n' =
        ([Effect.print ("Switching to next episode: " ++ (episodes.get ⟨i + 1, h⟩).Number),
          Effect.waitPlayer, Effect.resolveURL (episodes.get ⟨i + 1, h⟩).URL],
          Next.replay url (episodes.get ⟨i + 1, h⟩).Num) := by
      simp only [List.get_eq_getElem] at hurl ⊢
      simp [command, h, hurl]
    have henter := enterPlayVideo_nodup url episodes (i + 1) h hnd
    have hbuf : bufferedCommands getVideoURL episodes i ('n' :: rest) =
        ([Effect.print ("Switching to next episode: " ++ (episodes.get ⟨i + 1, h⟩).Number),
          Effect.waitPlayer, Effect.resolveURL (episodes.get ⟨i + 1, h⟩).URL,
          Effect.startPlayer url,
          Effect.print "Press 'n' for next episode, 'p' for previous episode, 'q' to quit:"],
          BufferEnd.more (i + 1)) := by
      simp only [bufferedCommands, hcmd, henter]
      rfl
    refine ⟨by rw [hcmd], by rw [henter], by rw [hbuf], ?_⟩
    simp only [commandLoop, hbuf]
  · intro h url hurl
    have hget : episodes[i - 1]? = some (episodes.get ⟨i - 1, by omega⟩) := by
      simp [List.getElem?_eq_getElem]
    have hcmd : command getVideoURL episodes i 'p' =
        ([Effect.print
            ("Switching to previous episode: " ++ (episodes.get ⟨i - 1, by omega⟩).Number),
          Effect.waitPlayer, Effect.resolveURL (episodes.get ⟨i - 1, by omega⟩).URL],
          Next.replay url (episodes.get ⟨i - 1, by omega⟩).Num) := by
      simp only [command, hget, hurl]
      simp [h]
    have henter := enterPlayVideo_nodup url episodes (i - 1) (by omega) hnd
    have hbuf : bufferedCommands getVideoURL episodes i ('p' :: rest) =
        ([Effect.print
            ("Switching to previous episode: " ++ (episodes.get ⟨i - 1, by omega⟩).Number),
          Effect.waitPlayer, Effect.resolveURL (episodes.get ⟨i - 1, by omega⟩).URL,
          Effect.startPlayer url,
          Effect.print "Press 'n' for next episode, 'p' for previous episode, 'q' to quit:"],
          BufferEnd.more (i - 1)) := by
      simp only [bufferedCommands, hcmd, henter]
      rfl
    refine ⟨by rw [hcmd], by rw [henter], by rw [hbuf], ?_⟩
    simp only [commandLoop, hbuf]

/-- Witness of `navigation_reaches_neighbour`: `[{1},{2},{3}]` at index 1, command `n`. -/
theorem navigation_reaches_neighbour_witness :
    (bufferedCommands (fun u => some u) [⟨"1", 1, "a"⟩, ⟨"2", 2, "b"⟩, ⟨"3", 3, "c"⟩] 1
      ['n']).2 = BufferEnd.more (1 + 1) :=
  ((navigation_reaches_neighbour (fun u => some u)
    [⟨"1", 1, "a"⟩, ⟨"2", 2, "b"⟩, ⟨"3", 3, "c"⟩] 1 [] [] (by decide) (by decide)).1
      (by decide) "c" rfl).2.2.1

/-! ## The metadata probe -/

/-- A probe whose status is neither 200 nor 206 ends the call with an error before any
chunk task is launched, and the file system is left as it was. -/
theorem DownloadVideo_status_rejected (env : Env) (N : Int) (fs : FS) (status : Int)
    (header ranges : String) (hhead : env.head = some (status, header, ranges))
    (hstatus : status ≠ 200 ∧ status ≠ 206) :
    (∃ msg, (DownloadVideo env N fs).ret = Ret.error msg) ∧
    (DownloadVideo env N fs).launched = 0 ∧ (DownloadVideo env N fs).fs = fs := by
  simp [DownloadVideo, hhead, hstatus]

/-- C10 (the code at the failing input): the probe of `noRangeEnv` is answered `200`
without an `Accept-Ranges` header, yet `DownloadVideo` launches its four chunk tasks,
returns `nil`, and leaves a destination file of 32 bytes for a resource of 8 bytes. -/
theorem probe_without_accept_ranges_proceeds :
    noRangeEnv.head = some (200, "8", "") ∧
    (DownloadVideo noRangeEnv 4 emptyFS).launched = 4 ∧
    (DownloadVideo noRangeEnv 4 emptyFS).ret = Ret.nil ∧
    ((DownloadVideo noRangeEnv 4 emptyFS).fs Path.dest).map List.length = some 32 := by
  decide

/-! ## The part files after the merge -/

/-- The merge loop creates no part file. -/
theorem mergeLoop_part_none (env : Env) (i : Nat) :
    ∀ (l : List Nat) (fs : FS), fs (Path.part i) = none →
      (mergeLoop env l fs).2 (Path.part i) = none
  | [], fs, h => by simpa [mergeLoop] using h
  | j :: rest, fs, h => by
    cases hpj : fs (Path.part j) with
    | none => simpa [mergeLoop, hpj] using h
    | some data =>
      have hstep : ∀ b, ((fs.write Path.dest b).remove (Path.part j)) (Path.part i) = none := by
        intro b
        by_cases hij : i = j
        · subst hij; exact FS.remove_same _ _
        · rw [FS.remove_other _ _ _ (by simpa using hij), FS.write_other _ _ _ _ (by simp)]
          exact h
      cases hcj : env.copyErr j with
      | some k =>
        simp only [mergeLoop, hpj, hcj]
        exact hstep _
      | none =>
        simp only [mergeLoop, hpj, hcj]
        exact mergeLoop_part_none env i rest _ (hstep _)

/-- When the merge loop returns `nil`, it has removed every part file it was given. -/
theorem mergeLoop_nil_parts (env : Env) :
    ∀ (l : List Nat) (fs : FS), (mergeLoop env l fs).1 = Ret.nil →
      ∀ i ∈ l, (mergeLoop env l fs).2 (Path.part i) = none
  | [], _, _, i, hi => by simp at hi
  | j :: rest, fs, hret, i, hi => by
    cases hpj : fs (Path.part j) with
    | none => simp [mergeLoop, hpj] at hret
    | some data =>
      cases hcj : env.copyErr j with
      | some k => simp [mergeLoop, hpj, hcj] at hret
      | none =>
        simp only [mergeLoop, hpj, hcj] at hret ⊢
        by_cases hmem : i ∈ rest
        · exact mergeLoop_nil_parts env rest _ hret i hmem
        · have hij : i = j := by
            rcases List.mem_cons.mp hi with h | h
            · exact h
            · exact absurd h hmem
          subst hij
          exact mergeLoop_part_none env i rest _ (FS.remove_same _ _)

/-- When `DownloadVideo` returns `nil`, none of its part files is left. -/
theorem DownloadVideo_nil_no_parts (env : Env) (N : Int) (fs : FS) (status S : Int)
    (header ranges : String) (hhead : env.head = some (status, header, ranges))
    (hlen : Atoi (goBytes header) = (S, none))
    (hret : (DownloadVideo env N fs).ret = Ret.nil) :
    ∀ i, i < N.toNat → (DownloadVideo env N fs).fs (Path.part i) = none := by
  obtain ⟨hstatus, hN, hpool, hcreate⟩ :=
    DownloadVideo_nil_inv env N fs status S header ranges hhead hlen hret
  obtain ⟨n, rfl⟩ : ∃ n : Nat, N = n := ⟨N.toNat, by omega⟩
  have hn : 1 ≤ n := by omega
  rw [DownloadVideo_merge env n fs status S header ranges hn hhead hstatus hlen hpool hcreate]
    at hret ⊢
  intro i hi
  simp only [Int.toNat_natCast] at hi
  exact mergeLoop_nil_parts env _ _ hret i (List.mem_range.mpr hi)

/-- C11 (the code at the failing input): in the run `failedRequestEnv` all four chunk
tasks are launched and joined, the task of part 3 finishes, and `DownloadVideo` returns
the error of opening the missing part 2 while part file 3 is still there; in the run
`noDestEnv` it returns the error of creating the destination while all four part files
are still there. -/
theorem failed_merge_leaves_part_files :
    (DownloadVideo failedRequestEnv 4 emptyFS).launched = 4 ∧
    (chunkTask failedRequestEnv (chunkFrom 8 4 3) (chunkTo 8 4 3) 3 emptyFS).2 =
      TaskEnd.finished ∧
    (DownloadVideo failedRequestEnv 4 emptyFS).ret =
      Ret.error "open: no such file or directory" ∧
    (DownloadVideo failedRequestEnv 4 emptyFS).fs (Path.part 3) = some [7, 8] ∧
    (DownloadVideo noDestEnv 4 emptyFS).launched = 4 ∧
    (DownloadVideo noDestEnv 4 emptyFS).ret = Ret.error "os.Create" ∧
    (List.range 4).map (fun i => (DownloadVideo noDestEnv 4 emptyFS).fs (Path.part i)) =
      [some [1, 2], some [3, 4], some [5, 6], some [7, 8]] := by
  decide

/-! ## Strings that are not IP literals -/

/-- None of the four predicates of the policy holds of the nil address. -/
theorem policy_nil :
    (IP.IsMulticast [] || IP.IsUnspecified [] || IP.IsLoopback [] || IP.IsPrivate []) =
      false := by
  decide

/-- A string that `net.ParseIP` does not accept is not disallowed. -/
theorem IsDisallowedIP_of_nil (hostIP : String) (h : ParseIP hostIP = []) :
    IsDisallowedIP hostIP = false := by
  simp only [IsDisallowedIP, h]
  exact policy_nil

/-- C12: `IsDisallowedIP` fails open.  For every string that `net.ParseIP` does not
accept it returns false; the empty string, which the peer check of `SafeTransport` uses
when splitting the remote address fails, is such a string, so that check lets the
connection through, as it does for every host part that is not an IP literal; and
`isValidURL` returns true for every URL that parses and whose hostname is not an IP
literal. -/
theorem IsDisallowedIP_fails_open :
    (∀ hostIP : String, ParseIP hostIP = [] → IsDisallowedIP hostIP = false) ∧
    ParseIP "" = [] ∧ IsDisallowedIP "" = false ∧ peerCheck none = Ret.nil ∧
    (∀ host port : String, ParseIP host = [] → peerCheck (some (host, port)) = Ret.nil) ∧
    (∀ (hostname : String → Option String) (url host : String),
      hostname url = some host → ParseIP host = [] → isValidURL hostname url = true) := by
  refine ⟨IsDisallowedIP_of_nil, by decide, by decide, by decide, ?_, ?_⟩
  · intro host port h
    simp [peerCheck, IsDisallowedIP_of_nil host h]
  · intro hostname url host hurl h
    simp [isValidURL, hurl, h]

/-- Witness of `IsDisallowedIP_fails_open`: the host name `example.com` and the
zoned address `fe80::1%eth0` are not IP literals for `net.ParseIP`. -/
theorem IsDisallowedIP_fails_open_witness :
    IsDisallowedIP "example.com" = false ∧
    peerCheck (some ("fe80::1%eth0", "443")) = Ret.nil ∧
    isValidURL (fun _ => some "example.com") "https://example.com/video.mp4" = true :=
  ⟨IsDisallowedIP_fails_open.1 "example.com" (by decide),
    IsDisallowedIP_fails_open.2.2.2.2.1 "fe80::1%eth0" "443" (by decide),
    IsDisallowedIP_fails_open.2.2.2.2.2 (fun _ => some "example.com")
      "https://example.com/video.mp4" "example.com" rfl (by decide)⟩

/-! ## Candidate lists without a positive label -/

/-- With no label of positive value the selection loop never leaves its initial state. -/
theorem selectHighestQualityVideo_none (videos : List VideoData)
    (h : ∀ u ∈ videos, qualityValue u.Label ≤ 0) : selectHighestQualityVideo videos = "" := by
  rcases foldl_selectStep videos ("", "") with ⟨_, hfold⟩ | ⟨pre, v, post, hsplit, _, _, hlt, _⟩
  · simp [selectHighestQualityVideo, hfold]
  · have hv := h v (by rw [hsplit]; simp)
    have h0 : qualityValue ("", "").1 = 0 := qualityValue_empty
    omega

/-! ## The value of a label -/

/-- The value of a label that denotes an integer fitting 64 bits is that integer. -/
theorem qualityValue_of_decimal (q : String) (n : Int)
    (h : decimalValue (trimRightByte (goBytes q) 112) = some n)
    (hlo : -(2 : Int) ^ 63 ≤ n) (hhi : n < (2 : Int) ^ 63) : qualityValue q = n := by
  unfold qualityValue
  rw [Atoi_decimal _ n (label_bytes_lt q) h hlo hhi]

/-- The value of a label on which `Atoi` reports a syntax error is 0. -/
theorem qualityValue_of_syntax (q : String)
    (h : (Atoi (trimRightByte (goBytes q) 112)).2 = some NumErr.ErrSyntax) :
    qualityValue q = 0 := by
  unfold qualityValue
  rcases Atoi_shape _ (label_bytes_lt q) with ⟨n, _, h1⟩ | h1 | h1 | h1 <;>
    rw [h1] at h ⊢ <;> first | rfl | cases h

/-- The value of a label on which `Atoi` reports a range error is the largest or the
smallest 64-bit integer. -/
theorem qualityValue_of_range (q : String)
    (h : (Atoi (trimRightByte (goBytes q) 112)).2 = some NumErr.ErrRange) :
    qualityValue q = (2 : Int) ^ 63 - 1 ∨ qualityValue q = -(2 : Int) ^ 63 := by
  unfold qualityValue
  rcases Atoi_shape _ (label_bytes_lt q) with ⟨n, _, h1⟩ | h1 | h1 | h1
  · rw [h1] at h; cases h
  · rw [h1] at h; cases h
  · exact Or.inl (by rw [h1])
  · exact Or.inr (by rw [h1])

/-- The value of a label is greater than 0 exactly when `Atoi` parses a positive integer
from it, or reports a range error and returns the largest 64-bit integer. -/
theorem qualityValue_pos_iff (q : String) :
    0 < qualityValue q ↔
      (∃ n, decimalValue (trimRightByte (goBytes q) 112) = some n ∧
        Atoi (trimRightByte (goBytes q) 112) = (n, none) ∧ 0 < n) ∨
      Atoi (trimRightByte (goBytes q) 112) = ((2 : Int) ^ 63 - 1, some NumErr.ErrRange) := by
  unfold qualityValue
  constructor
  · intro hpos
    rcases Atoi_shape _ (label_bytes_lt q) with ⟨n, hd, h1⟩ | h1 | h1 | h1
    · rw [h1] at hpos
      exact Or.inl ⟨n, hd, h1, hpos⟩
    · rw [h1] at hpos
      exact absurd hpos (by decide)
    · exact Or.inr h1
    · rw [h1] at hpos
      exact absurd hpos (by decide)
  · rintro (⟨n, _, h1, hn⟩ | h1)
    · rw [h1]; exact hn
    · rw [h1]; decide

/-! ## The first candidate of largest value -/

/-- C6 (counterexample): in `[{720p,A},{99999999999999999999x,B}]` the label of `B` is
not a number (the parse reports an error on it), so `720p` is the only label with a
numeric value and `A` the first candidate of largest numeric value; yet
`selectHighestQualityVideo` returns `B`, and `B` is not a first candidate of largest
value when a label with a parse error counts 0.  And in
`[{9223372036854775807p,A},{9223372036854775808p,B}]` the label of `B` denotes the larger
number, yet `selectHighestQualityVideo` returns `A`. -/
theorem clamped_label_selected :
    decimalValue (trimRightByte (goBytes "99999999999999999999x") 112) = none ∧
    (Atoi (trimRightByte (goBytes "99999999999999999999x") 112)).2 =
      some NumErr.ErrRange ∧
    specQualityValue "720p" = 720 ∧ specQualityValue "99999999999999999999x" = 0 ∧
    selectHighestQualityVideo [⟨"A", "720p"⟩, ⟨"B", "99999999999999999999x"⟩] = "B" ∧
    (¬ ∃ pre v post,
      [(⟨"A", "720p"⟩ : VideoData), ⟨"B", "99999999999999999999x"⟩] = pre ++ v :: post ∧
      (∀ u ∈ pre, specQualityValue u.Label < specQualityValue v.Label) ∧
      (∀ u ∈ post, specQualityValue u.Label ≤ specQualityValue v.Label) ∧
      selectHighestQualityVideo [⟨"A", "720p"⟩, ⟨"B", "99999999999999999999x"⟩] = v.Src) ∧
    decimalValue (trimRightByte (goBytes "9223372036854775807p") 112) =
      some 9223372036854775807 ∧
    decimalValue (trimRightByte (goBytes "9223372036854775808p") 112) =
      some 9223372036854775808 ∧
    selectHighestQualityVideo
      [⟨"A", "9223372036854775807p"⟩, ⟨"B", "9223372036854775808p"⟩] = "A" := by
  refine ⟨by decide, by decide, by decide, by decide, by decide, ?_, by decide, by decide,
    by decide⟩
  rintro ⟨pre, v, post, hsplit, hpre, _, hsel⟩
  have hB : selectHighestQualityVideo
      [⟨"A", "720p"⟩, ⟨"B", "99999999999999999999x"⟩] = "B" := by decide
  rw [hB] at hsel
  cases pre with
  | nil =>
    simp only [List.nil_append, List.cons.injEq] at hsplit
    rw [← hsplit.1] at hsel
    exact absurd hsel (by decide)
  | cons x pre =>
    simp only [List.cons_append, List.cons.injEq] at hsplit
    cases pre with
    | nil =>
      simp only [List.nil_append, List.cons.injEq] at hsplit
      have hlt := hpre x (List.mem_cons_self _ _)
      rw [← hsplit.1, ← hsplit.2.1] at hlt
      exact absurd hlt (by decide)
    | cons y pre =>
      simp at hsplit

/-- C6 (amended): for every candidate list in which some label has a value greater than
0, `selectHighestQualityVideo` returns the `Src` of the first candidate whose value is
the maximum over the list (every candidate before it has a smaller value, none after it
has a larger one), where the value of a label is the integer `isHigherQuality` compares:
what `Atoi` returns for the label without its trailing `p`s, the error dropped, that is
the integer the label denotes when it fits 64 bits, 0 on a syntax error, and the
largest or smallest 64-bit integer on a range error.  For `[{360p,A},{1080p,B},{720p,C}]`
it returns `B`, and of two candidates with the maximum the earlier one wins. -/
theorem selectHighestQualityVideo_first_max :
    (∀ videos : List VideoData, (∃ u ∈ videos, 0 < qualityValue u.Label) →
      ∃ pre v post, videos = pre ++ v :: post ∧
        (∀ u ∈ pre, qualityValue u.Label < qualityValue v.Label) ∧
        (∀ u ∈ post, qualityValue u.Label ≤ qualityValue v.Label) ∧
        selectHighestQualityVideo videos = v.Src) ∧
    (∀ q1 q2 : String, isHigherQuality q1 q2 = true ↔ qualityValue q1 > qualityValue q2) ∧
    (∀ (q : String) (n : Int), decimalValue (trimRightByte (goBytes q) 112) = some n →
      -(2 : Int) ^ 63 ≤ n → n < (2 : Int) ^ 63 → qualityValue q = n) ∧
    (∀ q : String, (Atoi (trimRightByte (goBytes q) 112)).2 = some NumErr.ErrSyntax →
      qualityValue q = 0) ∧
    (∀ q : String, (Atoi (trimRightByte (goBytes q) 112)).2 = some NumErr.ErrRange →
      qualityValue q = (2 : Int) ^ 63 - 1 ∨ qualityValue q = -(2 : Int) ^ 63) ∧
    selectHighestQualityVideo [⟨"A", "360p"⟩, ⟨"B", "1080p"⟩, ⟨"C", "720p"⟩] = "B" ∧
    selectHighestQualityVideo [⟨"A", "720p"⟩, ⟨"B", "1080p"⟩, ⟨"C", "1080p"⟩] = "B" := by
  refine ⟨?_, isHigherQuality_iff, qualityValue_of_decimal, qualityValue_of_syntax,
    qualityValue_of_range, by decide, by decide⟩
  rintro videos ⟨u, hu, hpos⟩
  rcases foldl_selectStep videos ("", "") with ⟨hle, _⟩ | ⟨pre, v, post, hsplit, hpre, hpost, _, hfold⟩
  · have := hle u hu
    rw [qualityValue_empty] at this
    omega
  · exact ⟨pre, v, post, hsplit, hpre, hpost, by simp [selectHighestQualityVideo, hfold]⟩

/-- Witness of `selectHighestQualityVideo_first_max`: the list of the specification. -/
theorem selectHighestQualityVideo_first_max_witness :
    ∃ pre v post,
      [(⟨"A", "360p"⟩ : VideoData), ⟨"B", "1080p"⟩, ⟨"C", "720p"⟩] = pre ++ v :: post ∧
      (∀ u ∈ pre, qualityValue u.Label < qualityValue v.Label) ∧
      (∀ u ∈ post, qualityValue u.Label ≤ qualityValue v.Label) ∧
      selectHighestQualityVideo [⟨"A", "360p"⟩, ⟨"B", "1080p"⟩, ⟨"C", "720p"⟩] = v.Src :=
  selectHighestQualityVideo_first_max.1 _ ⟨⟨"A", "360p"⟩, by simp, by decide⟩

/-! ## Lists without a label of positive value -/

/-- C13 (counterexample): the only label of `[{99999999999999999999x,A}]` is not a
number (the parse reports an error on it, and it counts 0 in the specification), so no
label of the list has a numeric value greater than 0; yet `selectHighestQualityVideo`
returns `A`, and `extractActualVideoURL` returns `A` with a nil error. -/
theorem clamped_label_url_returned :
    decimalValue (trimRightByte (goBytes "99999999999999999999x") 112) = none ∧
    (Atoi (trimRightByte (goBytes "99999999999999999999x") 112)).2 =
      some NumErr.ErrRange ∧
    specQualityValue "99999999999999999999x" = 0 ∧
    selectHighestQualityVideo [⟨"A", "99999999999999999999x"⟩] = "A" ∧
    extractActualVideoURL
        ⟨some (200, "200 OK"), true, some [⟨"A", "99999999999999999999x"⟩]⟩ =
      ("A", Ret.nil) := by
  decide

/-- C13 (amended): for every candidate list, empty or not, in which no label has a value
greater than 0, `selectHighestQualityVideo` returns the empty string, and
`extractActualVideoURL`, when the answer decodes to that list, returns the empty string
with an error: `no video data found in the response` for the empty list,
`no suitable video quality found` otherwise.  The value of a label is the integer
`isHigherQuality` compares; it is greater than 0 exactly when `Atoi` parses a positive
integer from the label without its trailing `p`s, or reports a range error on it and
returns the largest 64-bit integer. -/
theorem no_positive_label_no_url :
    (∀ videos : List VideoData, (∀ u ∈ videos, qualityValue u.Label ≤ 0) →
      selectHighestQualityVideo videos = "" ∧
      ∀ (env : SourceEnv) (status : String), env.get = some (200, status) →
        env.readAllOk = true → env.unmarshal = some videos →
        extractActualVideoURL env =
          ("", Ret.error (if videos = [] then "no video data found in the response"
            else "no suitable video quality found"))) ∧
    (∀ q : String, 0 < qualityValue q ↔
      (∃ n, decimalValue (trimRightByte (goBytes q) 112) = some n ∧
        Atoi (trimRightByte (goBytes q) 112) = (n, none) ∧ 0 < n) ∨
      Atoi (trimRightByte (goBytes q) 112) = ((2 : Int) ^ 63 - 1, some NumErr.ErrRange)) := by
  refine ⟨?_, qualityValue_pos_iff⟩
  intro videos h
  have hsel := selectHighestQualityVideo_none videos h
  refine ⟨hsel, ?_⟩
  intro env status hget hread hjson
  cases videos with
  | nil => simp [extractActualVideoURL, hget, hread, hjson]
  | cons v rest => simp [extractActualVideoURL, hget, hread, hjson, hsel]

/-- Witness of `no_positive_label_no_url`: a list whose labels are a word, `0p` and a
negative number, decoded from an answer with status 200. -/
theorem no_positive_label_no_url_witness :
    selectHighestQualityVideo [⟨"A", "auto"⟩, ⟨"B", "0p"⟩, ⟨"C", "-720p"⟩] = "" ∧
    extractActualVideoURL
        ⟨some (200, "200 OK"), true, some [⟨"A", "auto"⟩, ⟨"B", "0p"⟩, ⟨"C", "-720p"⟩]⟩ =
      ("", Ret.error "no suitable video quality found") :=
  ⟨(no_positive_label_no_url.1 [⟨"A", "auto"⟩, ⟨"B", "0p"⟩, ⟨"C", "-720p"⟩] (by decide)).1,
    (no_positive_label_no_url.1 [⟨"A", "auto"⟩, ⟨"B", "0p"⟩, ⟨"C", "-720p"⟩] (by decide)).2
      ⟨some (200, "200 OK"), true, some [⟨"A", "auto"⟩, ⟨"B", "0p"⟩, ⟨"C", "-720p"⟩]⟩
      "200 OK" rfl rfl rfl⟩

end GoAnime
